import Mathlib

/-!
Verification of the packet-capture analysis engine of this repository.

The engine is implemented by the scripts `tests/bugs/wireshark1.py`
(`analyze_fasthttp_connections`) and `tests/bugs/wireshark3.py`
(`analyze_fasthttp_tcp_behavior`).  Both scripts consume a sequence of
decoded packet records and fold them through a per-flow state machine,
then run a read-only post-pass over the finished stream collection.

Embedding conventions, matching the pyshark access patterns of the
source:
* a pyshark layer attribute test such as
  `hasattr(packet.tcp, 'flags_syn') and packet.tcp.flags_syn == '1'`
  is embedded as the corresponding boolean flag being `true`, and
  `not hasattr(packet.tcp, 'flags_syn')` as it being `false`;
* `float(packet.sniff_timestamp)` is the only expression inside the
  per-packet `try` block that can raise for a TCP packet record; a
  packet with `tsBad = true` models a record whose timestamp string
  fails to convert, so the first `float(...)` evaluation raises and the
  rest of that packet's handling is skipped by the `except` handler;
* timestamps are exact rationals (`ℚ`), standing for the floating-point
  capture times; `getattr(..., default)` lookups with a default are
  folded into total fields;
* a Python `dict` is an association list with insert-or-update
  semantics (`insertA`); a Python `set` is a duplicate-free list built
  by `addSet`; a key whose value was only ever assigned `True` is a
  `Bool` field defaulting to `false`, and a key that may be absent at
  read time is an `Option` field defaulting to `none`.
-/

/-! ### Association-list dictionaries and list sets -/

def lookupA {K V : Type} [DecidableEq K] : List (K × V) → K → Option V
  | [], _ => none
  | (k', v) :: t, k => if k = k' then some v else lookupA t k

def insertA {K V : Type} [DecidableEq K] : List (K × V) → K → V → List (K × V)
  | [], k, v => [(k, v)]
  | (k', v') :: t, k, v => if k = k' then (k, v) :: t else (k', v') :: insertA t k v

/-- `updateA d k dflt f` models `d[k] = f(d.get(k, dflt))`, i.e. the Python
pattern "ensure the key exists with a default, then mutate its value". -/
def updateA {K V : Type} [DecidableEq K] (d : List (K × V)) (k : K) (dflt : V)
    (f : V → V) : List (K × V) :=
  insertA d k (f ((lookupA d k).getD dflt))

def memA {K V : Type} [DecidableEq K] (d : List (K × V)) (k : K) : Bool :=
  (lookupA d k).isSome

/-- `addSet l x` models `l.add(x)` on a Python set kept as an ordered list. -/
def addSet {A : Type} [DecidableEq A] (l : List A) (x : A) : List A :=
  if x ∈ l then l else l ++ [x]

/-! ### Packet records (wireshark3.py, `analyze_fasthttp_tcp_behavior`) -/

/-- TCP flag bits and the tshark analysis markers read by the scripts. -/
structure Flags where
  syn : Bool := false
  ack : Bool := false
  fin : Bool := false
  rst : Bool := false
  /-- `tcp.analysis_retransmission` attribute present. -/
  retrans : Bool := false
  /-- `tcp.analysis_ack_lost_segment` or `tcp.analysis_acked_unseen_segment`
  attribute present (the script tests the two with a single `or`). -/
  ackedUnseen : Bool := false
  deriving DecidableEq

/-- The value of an HTTP `Connection` header, abstracted to the two
case-insensitive substring tests the scripts perform on it. -/
structure ConnHdr where
  hasClose : Bool := false
  hasKeepAlive : Bool := false
  deriving DecidableEq

/-- The `http` layer of a packet, when present. -/
structure HttpInfo where
  isReq : Bool := false
  isResp : Bool := false
  method : ℕ := 0
  uri : ℕ := 0
  status : ℕ := 0
  /-- `packet.http.connection` when the attribute exists. -/
  conn : Option ConnHdr := none
  deriving DecidableEq

/-- One decoded packet record, as the scripts read it. Addresses and
ports are abstract identifiers with decidable equality. -/
structure Packet where
  /-- `'TCP' in packet`. -/
  tcp : Bool := true
  /-- `packet.tcp.stream`, the pre-assigned stream identifier. -/
  stream : ℕ := 0
  srcIp : ℕ := 0
  dstIp : ℕ := 0
  srcPort : ℕ := 0
  dstPort : ℕ := 0
  /-- wire byte count `packet.length`. -/
  len : ℕ := 0
  /-- value of `float(packet.sniff_timestamp)` when it converts. -/
  ts : ℚ := 0
  /-- `true` when `float(packet.sniff_timestamp)` raises. -/
  tsBad : Bool := false
  flags : Flags := {}
  http : Option HttpInfo := none
  deriving DecidableEq

/-! ### Per-stream record of wireshark3.py (`tcp_streams[stream_id]`) -/

structure SRec where
  hasSyn : Bool := false
  synTime : Option ℚ := none
  hasSynAck : Bool := false
  hasAck : Bool := false
  hasRst : Bool := false
  rstTime : Option ℚ := none
  rstFrom : Option ℕ := none
  hasFin : Bool := false
  finTime : Option ℚ := none
  finFrom : Option ℕ := none
  packets : ℕ := 0
  firstPacketTime : Option ℚ := none
  lastPacketTime : Option ℚ := none
  clientIp : Option ℕ := none
  serverIp : Option ℕ := none
  clientPort : Option ℕ := none
  serverPort : Option ℕ := none
  packetTimestamps : List ℚ := []
  deriving DecidableEq

/-- One `request_info` record of `http_requests_by_stream`. A `none`
connection stands for the `'default-keepalive'` marker the script
stores when the request carries no `Connection` header. -/
structure ReqInfo where
  time : ℚ
  method : ℕ := 0
  uri : ℕ := 0
  conn : Option ConnHdr := none
  deriving DecidableEq

/-- One `response_info` record of `http_responses_by_stream`. -/
structure RespInfo where
  time : ℚ
  status : ℕ := 0
  conn : Option ConnHdr := none
  deriving DecidableEq

/-- One element of the `rst_after_response` list. -/
structure RstEvt where
  stream : ℕ
  time : ℚ
  src : ℕ
  dst : ℕ
  deriving DecidableEq

/-- The mutable state of the packet loop of `analyze_fasthttp_tcp_behavior`. -/
structure St where
  tcpStreams : List (ℕ × SRec) := []
  httpRequests : List (ℕ × List ReqInfo) := []
  httpResponses : List (ℕ × List RespInfo) := []
  rstAfterResponse : List RstEvt := []
  keepalive : List ℕ := []
  totalRst : ℕ := 0
  totalFin : ℕ := 0
  closeHeaders : ℕ := 0
  reused : List ℕ := []
  /-- `tcp_ports_by_ip : ip ↦ (port ↦ set of stream ids)`. -/
  portsByIp : List (ℕ × List (ℕ × List ℕ)) := []
  retransmissions : ℕ := 0
  ackedUnseen : ℕ := 0
  rstAck : ℕ := 0
  deriving DecidableEq

def initSt : St := {}

/-- `tcp_ports_by_ip[ip][port]`, read with empty defaults. -/
def portStreams (s : St) (ip port : ℕ) : List ℕ :=
  (lookupA ((lookupA s.portsByIp ip).getD []) port).getD []

/-- `if stream_id not in tcp_streams: tcp_streams[stream_id] = {}` followed by
mutating one field of the entry. -/
def modStream (s : St) (sid : ℕ) (f : SRec → SRec) : St :=
  { s with tcpStreams := updateA s.tcpStreams sid {} f }

/-- `float(packet.sniff_timestamp)`: yields the time, or raises carrying the
state mutated so far. -/
def getTs (p : Packet) (s : St) : St ⊕ ℚ :=
  if p.tsBad then Sum.inl s else Sum.inr p.ts

/-- Sequencing inside the `try` block: a raised exception skips the rest. -/
def andThen (r : St ⊕ St) (f : St → St ⊕ St) : St ⊕ St :=
  match r with
  | Sum.inl s => Sum.inl s
  | Sum.inr s => f s

/-- Lines 55-70: record both endpoints' ports and flag the current stream as a
potential reused connection when either port set exceeds one stream. -/
def portTrack (s : St) (p : Packet) : St :=
  let m := updateA s.portsByIp p.srcIp []
    (fun pm => updateA pm p.srcPort [] (fun st => addSet st p.stream))
  let m := updateA m p.dstIp []
    (fun pm => updateA pm p.dstPort [] (fun st => addSet st p.stream))
  let s := { s with portsByIp := m }
  if 1 < (portStreams s p.srcIp p.srcPort).length ∨
     1 < (portStreams s p.dstIp p.dstPort).length then
    { s with reused := addSet s.reused p.stream }
  else s

/-- Lines 73-77: SYN without ACK. `has_syn` is set before the timestamp
conversion, so it survives a conversion failure. -/
def synBranch (p : Packet) (s : St) : St ⊕ St :=
  if p.flags.syn && !p.flags.ack then
    let s := modStream s p.stream (fun r => { r with hasSyn := true })
    match getTs p s with
    | Sum.inl s => Sum.inl s
    | Sum.inr t => Sum.inr (modStream s p.stream (fun r => { r with synTime := some t }))
  else Sum.inr s

/-- Lines 79-82: SYN+ACK. -/
def synAckBranch (p : Packet) (s : St) : St :=
  if p.flags.syn && p.flags.ack then
    modStream s p.stream (fun r => { r with hasSynAck := true })
  else s

/-- Lines 84-87: ACK without SYN. -/
def ackBranch (p : Packet) (s : St) : St :=
  if p.flags.ack && !p.flags.syn then
    modStream s p.stream (fun r => { r with hasAck := true })
  else s

/-- Lines 90-106: RST. The counter and `has_rst` precede the timestamp
conversion; the `rst_after_response` entry is appended only when the stream
already has an entry in `http_responses_by_stream`. -/
def rstBranch (p : Packet) (s : St) : St ⊕ St :=
  if p.flags.rst then
    let s := { s with totalRst := s.totalRst + 1 }
    let s := modStream s p.stream (fun r => { r with hasRst := true })
    match getTs p s with
    | Sum.inl s => Sum.inl s
    | Sum.inr t =>
      let s := modStream s p.stream
        (fun r => { r with rstTime := some t, rstFrom := some p.srcIp })
      if (lookupA s.httpResponses p.stream).isSome then
        Sum.inr { s with rstAfterResponse :=
          s.rstAfterResponse ++ [{ stream := p.stream, time := t,
                                   src := p.srcIp, dst := p.dstIp }] }
      else Sum.inr s
  else Sum.inr s

/-- Lines 109-115: FIN. -/
def finBranch (p : Packet) (s : St) : St ⊕ St :=
  if p.flags.fin then
    let s := { s with totalFin := s.totalFin + 1 }
    let s := modStream s p.stream (fun r => { r with hasFin := true })
    match getTs p s with
    | Sum.inl s => Sum.inl s
    | Sum.inr t => Sum.inr (modStream s p.stream
        (fun r => { r with finTime := some t, finFrom := some p.srcIp }))
  else Sum.inr s

/-- The dict literal of lines 119-128 (note: no `first_packet_time` is ever
added to records that were created empty by an earlier flag branch). -/
def freshRec (p : Packet) (t : ℚ) : SRec :=
  { packets := 0, firstPacketTime := some t, lastPacketTime := some t,
    clientIp := some p.srcIp, serverIp := some p.dstIp,
    clientPort := some p.srcPort, serverPort := some p.dstPort,
    packetTimestamps := [t] }

/-- Lines 118-135: create the full record on a first packet, otherwise update
`last_packet_time` and append the timestamp; then increment `packets`. -/
def trackBranch (p : Packet) (s : St) : St ⊕ St :=
  let part : St ⊕ St :=
    if (lookupA s.tcpStreams p.stream).isNone then
      match getTs p s with
      | Sum.inl s => Sum.inl s
      | Sum.inr t =>
        Sum.inr { s with tcpStreams := insertA s.tcpStreams p.stream (freshRec p t) }
    else
      match getTs p s with
      | Sum.inl s => Sum.inl s
      | Sum.inr t => Sum.inr (modStream s p.stream (fun r =>
          { r with lastPacketTime := some t,
                   packetTimestamps := r.packetTimestamps ++ [t] }))
  andThen part (fun s =>
    Sum.inr (modStream s p.stream (fun r => { r with packets := r.packets + 1 })))

/-- Lines 138-178: the HTTP correlator. Request and response entries are first
created empty, then the info record (whose construction converts the
timestamp) is appended; the keep-alive and close-header bookkeeping sits
between the two steps, exactly as in the source. -/
def httpBranch (p : Packet) (s : St) : St ⊕ St :=
  match p.http with
  | none => Sum.inr s
  | some h =>
    let reqPart : St ⊕ St :=
      if h.isReq then
        let s := if (lookupA s.httpRequests p.stream).isNone then
            { s with httpRequests := insertA s.httpRequests p.stream [] }
          else s
        match getTs p s with
        | Sum.inl s => Sum.inl s
        | Sum.inr t =>
          let info : ReqInfo := { time := t, method := h.method, uri := h.uri,
                                  conn := h.conn }
          let s := match h.conn with
            | some c => if c.hasKeepAlive then
                { s with keepalive := addSet s.keepalive p.stream } else s
            | none => { s with keepalive := addSet s.keepalive p.stream }
          Sum.inr { s with httpRequests := updateA s.httpRequests p.stream [] (fun l => l ++ [info]) }
      else Sum.inr s
    andThen reqPart (fun s =>
      if h.isResp then
        let s := if (lookupA s.httpResponses p.stream).isNone then
            { s with httpResponses := insertA s.httpResponses p.stream [] }
          else s
        match getTs p s with
        | Sum.inl s => Sum.inl s
        | Sum.inr t =>
          let s := match h.conn with
            | some c => if c.hasClose then
                { s with closeHeaders := s.closeHeaders + 1 } else s
            | none => s
          let info : RespInfo := { time := t, status := h.status, conn := h.conn }
          Sum.inr { s with httpResponses := updateA s.httpResponses p.stream [] (fun l => l ++ [info]) }
      else Sum.inr s)

/-- Lines 180-192: retransmission, acked-unseen and RST+ACK counters. -/
def markerBlock (p : Packet) (s : St) : St :=
  let s := if p.flags.retrans then
      { s with retransmissions := s.retransmissions + 1 } else s
  let s := if p.flags.ackedUnseen then
      { s with ackedUnseen := s.ackedUnseen + 1 } else s
  if p.flags.rst && p.flags.ack then { s with rstAck := s.rstAck + 1 } else s

/-- The body of the `try` block for one packet. -/
def w3try (s : St) (p : Packet) : St ⊕ St :=
  if p.tcp then
    let s := portTrack s p
    andThen (synBranch p s) (fun s =>
      let s := synAckBranch p s
      let s := ackBranch p s
      andThen (rstBranch p s) (fun s =>
        andThen (finBranch p s) (fun s =>
          andThen (trackBranch p s) (fun s =>
            andThen (httpBranch p s) (fun s =>
              Sum.inr (markerBlock p s))))))
  else Sum.inr s

/-- One iteration of the packet loop: the `except` handler reports the error
and continues with whatever state the packet left behind. -/
def w3step (s : St) (p : Packet) : St :=
  match w3try s p with
  | Sum.inl s => s
  | Sum.inr s => s

def run3From (s : St) (tr : List Packet) : St :=
  tr.foldl w3step s

/-- The whole packet loop of `analyze_fasthttp_tcp_behavior`. -/
def run3 (tr : List Packet) : St :=
  run3From initSt tr

/-! ### The post-pass of wireshark3.py (lines 197-309) -/

/-- Stable insertion into a list sorted by `le`. -/
def insertByD {A : Type} (le : A → A → Bool) (x : A) : List A → List A
  | [] => [x]
  | y :: t => if le x y then x :: y :: t else y :: insertByD le x t

/-- `sorted(...)` / `list.sort(key=...)`. -/
def sortByD {A : Type} (le : A → A → Bool) : List A → List A
  | [] => []
  | x :: t => insertByD le x (sortByD le t)

/-- Insertion into a sorted list of timestamps. -/
def insertQ (x : ℚ) : List ℚ → List ℚ
  | [] => [x]
  | y :: t => if x ≤ y then x :: y :: t else y :: insertQ x t

/-- `sorted(timestamps)`. -/
def sortQ : List ℚ → List ℚ
  | [] => []
  | x :: t => insertQ x (sortQ t)

/-- `[timestamps[i+1] - timestamps[i] for i in range(len(timestamps)-1)]`. -/
def gaps : List ℚ → List ℚ
  | x :: y :: t => (y - x) :: gaps (y :: t)
  | _ => []

/-- Python `max` on a list the source only applies to nonempty lists. -/
def pyMax : List ℚ → ℚ
  | [] => 0
  | x :: t => t.foldl max x

/-- One record of the `silently_terminated_streams` list (lines 219-225). -/
structure SilentRec where
  stream : ℕ
  maxIdle : ℚ
  avgIdle : ℚ
  requests : ℕ
  responses : ℕ
  deriving DecidableEq

/-- The body of the idle-period loop for one stream (lines 207-225): the
stream qualifies when it has more than one timestamp and the largest gap of
the sorted timestamps exceeds five times the mean gap and the 1.0s floor,
and the stream has an entry in `http_requests_by_stream`. -/
def silentCheck (s : St) (sid : ℕ) (r : SRec) : Option SilentRec :=
  if 1 < r.packetTimestamps.length then
    let ds := gaps (sortQ r.packetTimestamps)
    if 0 < ds.length then
      let mx := pyMax ds
      let av := ds.sum / (ds.length : ℚ)
      if mx > av * 5 ∧ mx > 1 then
        if memA s.httpRequests sid then
          some { stream := sid, maxIdle := mx, avgIdle := av,
                 requests := ((lookupA s.httpRequests sid).getD []).length,
                 responses := ((lookupA s.httpResponses sid).getD []).length }
        else none
      else none
    else none
  else none

/-- `silently_terminated_streams` at the end of the loop. -/
def silentStreams (s : St) : List SilentRec :=
  s.tcpStreams.filterMap (fun kr => silentCheck s kr.1 kr.2)

def silentIds (s : St) : List ℕ :=
  (silentStreams s).map SilentRec.stream

/-- `idle_periods`: the largest gap of every stream with at least two
timestamps (collected by the same loop as `silentStreams`). -/
def idlePeriods (s : St) : List ℚ :=
  s.tcpStreams.filterMap (fun kr =>
    if 1 < kr.2.packetTimestamps.length then
      let ds := gaps (sortQ kr.2.packetTimestamps)
      if 0 < ds.length then some (pyMax ds) else none
    else none)

/-- `'has_syn' in ∧ 'has_syn_ack' in ∧ 'has_ack' in` (line 200, negated). -/
def isComplete (r : SRec) : Bool :=
  r.hasSyn && r.hasSynAck && r.hasAck

/-- `partial_handshakes` (streams with any of the three flags missing). -/
def handshakeIncomplete (s : St) : List ℕ :=
  (s.tcpStreams.filter (fun kr => !isComplete kr.2)).map Prod.fst

/-- `complete_handshakes`. -/
def handshakeComplete (s : St) : List ℕ :=
  (s.tcpStreams.filter (fun kr => isComplete kr.2)).map Prod.fst

/-- `set(item['stream_id'] for item in rst_after_response)` (line 243). -/
def rstStreamsAfterResponse (s : St) : List ℕ :=
  s.rstAfterResponse.foldl (fun acc it => addSet acc it.stream) []

/-- Lines 248-250: `data['last_packet_time'] - data['first_packet_time']` with
direct indexing; a stream missing either key raises a `KeyError` that aborts
the whole post-pass, modelled by `none`. -/
def streamDurations (s : St) : Option (List (ℕ × ℚ)) :=
  s.tcpStreams.mapM (fun kr =>
    match kr.2.lastPacketTime, kr.2.firstPacketTime with
    | some lt, some ft => some (kr.1, lt - ft)
    | _, _ => none)

def sortByDur (l : List (ℕ × ℚ)) : List (ℕ × ℚ) :=
  sortByD (fun a b => decide (a.2 ≤ b.2)) l

/-- Lines 263-267: streams with a request entry, no response entry, and a
membership in the RST-after-response set. -/
def incompleteStreams (s : St) : List ℕ :=
  let rs := rstStreamsAfterResponse s
  (s.httpRequests.map Prod.fst).filter
    (fun sid => !memA s.httpResponses sid && rs.contains sid)

/-- Lines 273-282: one delta per `rst_after_response` item whose stream still
has a nonempty response list; the delta is the item's RST time minus the
largest response time. -/
def timingIssues (s : St) : List (ℕ × ℚ) :=
  s.rstAfterResponse.filterMap (fun it =>
    match lookupA s.httpResponses it.stream with
    | none => none
    | some resps =>
      let rts := resps.map RespInfo.time
      if rts.isEmpty then none else some (it.stream, it.time - pyMax rts))

/-- The four `time_ranges` buckets (lines 291-296). -/
structure Hist where
  lt10ms : ℕ := 0
  ms10to100 : ℕ := 0
  ms100to1s : ℕ := 0
  gt1s : ℕ := 0
  deriving DecidableEq

/-- Lines 298-306: each delta lands in the first matching range. -/
def bucketAdd (h : Hist) (t : ℚ) : Hist :=
  if t < 1/100 then { h with lt10ms := h.lt10ms + 1 }
  else if t < 1/10 then { h with ms10to100 := h.ms10to100 + 1 }
  else if t < 1 then { h with ms100to1s := h.ms100to1s + 1 }
  else { h with gt1s := h.gt1s + 1 }

def histogram (l : List (ℕ × ℚ)) : Hist :=
  l.foldl (fun h it => bucketAdd h it.2) {}

def histTotal (h : Hist) : ℕ :=
  h.lt10ms + h.ms10to100 + h.ms100to1s + h.gt1s

/-- Everything the post-pass derives from the finished stream collection. -/
structure Report where
  handshakeIncompleteIds : List ℕ
  handshakeCompleteIds : List ℕ
  idle : List ℚ
  silent : List SilentRec
  rstAfterRespIds : List ℕ
  durationsSorted : List (ℕ × ℚ)
  shortStreams : List (ℕ × ℚ)
  incomplete : List ℕ
  timing : List (ℕ × ℚ)
  hist : Hist
  deriving DecidableEq

/-- The post-pass in source order (lines 197-309).  The duration loop
(lines 248-250) indexes `first_packet_time`/`last_packet_time` directly, so a
stream missing either key aborts the pass and the later checks never run. -/
def analysisPass (s : St) : Option Report :=
  let ph := handshakeIncomplete s
  let ch := handshakeComplete s
  let idle := idlePeriods s
  let sil := silentStreams s
  let rs := rstStreamsAfterResponse s
  match streamDurations s with
  | none => none
  | some durs =>
    let sorted := sortByDur durs
    let shorts := sorted.filter (fun sd =>
      decide (sd.2 < 1/2) && (memA s.httpRequests sd.1 || memA s.httpResponses sd.1))
    let ti := sortByDur (timingIssues s)
    some { handshakeIncompleteIds := ph, handshakeCompleteIds := ch,
           idle := idle, silent := sil, rstAfterRespIds := rs,
           durationsSorted := sorted, shortStreams := shorts,
           incomplete := incompleteStreams s, timing := ti,
           hist := histogram ti }

/-! ### wireshark1.py (`analyze_fasthttp_connections`) -/

/-- `connection_ends[key]` values. -/
inductive Term where
  | RST
  | FIN
  deriving DecidableEq

/-- Directional connection key `(src_ip, src_port, dst_ip, dst_port)`. -/
abbrev CKey := ℕ × ℕ × ℕ × ℕ

def fwdKey (p : Packet) : CKey := (p.srcIp, p.srcPort, p.dstIp, p.dstPort)

def revKey (p : Packet) : CKey := (p.dstIp, p.dstPort, p.srcIp, p.srcPort)

/-- One `connections[key]` record.  Entries are created only by the SYN branch
(line 44), whose dict literal always carries `start_time`, `syn_sent`,
`established`, `packets` and `bytes`; the remaining keys appear later. -/
structure Conn1 where
  startTime : ℚ
  synSent : Bool := true
  established : Bool := false
  packets : ℕ := 1
  bytes : ℤ := 0
  synAckReceived : Bool := false
  endTime : Option ℚ := none
  duration : Option ℚ := none
  hasHttpRequest : Bool := false
  hasHttpResponse : Bool := false
  hasConnectionClose : Bool := false
  httpMethod : Option ℕ := none
  httpUri : Option ℕ := none
  httpStatus : Option ℕ := none
  deriving DecidableEq

/-- The mutable state of the packet loop of `analyze_fasthttp_connections`. -/
structure St1 where
  connections : List (CKey × Conn1) := []
  connectionEnds : List (CKey × Term) := []
  httpResponses : List (CKey × ℕ) := []
  rstCount : ℕ := 0
  finCount : ℕ := 0
  totalConnections : ℕ := 0
  httpRequests : ℕ := 0
  httpResponsesCount : ℕ := 0
  closeHeaders : ℕ := 0
  deriving DecidableEq

def initSt1 : St1 := {}

def getTs1 (p : Packet) (s : St1) : St1 ⊕ ℚ :=
  if p.tsBad then Sum.inl s else Sum.inr p.ts

def andThen1 (r : St1 ⊕ St1) (f : St1 → St1 ⊕ St1) : St1 ⊕ St1 :=
  match r with
  | Sum.inl s => Sum.inl s
  | Sum.inr s => f s

def modConn (s : St1) (k : CKey) (f : Conn1 → Conn1) : St1 :=
  { s with connections :=
      match lookupA s.connections k with
      | none => s.connections
      | some c => insertA s.connections k (f c) }

/-- Loop body of lines 62-66 for one key direction: mark an un-established
connection established and account the packet. -/
def ackUpd (p : Packet) (s : St1) (k : CKey) : St1 :=
  match lookupA s.connections k with
  | some c =>
    if !c.established then
      modConn s k (fun c =>
        { c with established := true, packets := c.packets + 1, bytes := c.bytes + (p.len : ℤ) })
    else s
  | none => s

/-- Lines 43-66: the `if/elif/elif` chain over SYN, SYN+ACK and plain ACK.
The SYN branch's dict literal converts the timestamp before the entry (and
the `total_connections` increment) lands. -/
def estBranch (p : Packet) (s : St1) : St1 ⊕ St1 :=
  if p.flags.syn && !p.flags.ack then
    match getTs1 p s with
    | Sum.inl s => Sum.inl s
    | Sum.inr t =>
      let c : Conn1 := { startTime := t, synSent := true, established := false,
                         packets := 1, bytes := (p.len : ℤ) }
      Sum.inr { s with connections := insertA s.connections (fwdKey p) c,
                       totalConnections := s.totalConnections + 1 }
  else if p.flags.syn && p.flags.ack then
    Sum.inr (modConn s (revKey p) (fun c =>
      { c with synAckReceived := true, packets := c.packets + 1,
               bytes := c.bytes + (p.len : ℤ) }))
  else if p.flags.ack && !p.flags.syn then
    Sum.inr (ackUpd p (ackUpd p s (fwdKey p)) (revKey p))
  else Sum.inr s

/-- One iteration of the RST loop body (lines 71-75): `connection_ends[key]`
is overwritten unconditionally, then the timestamp conversion can raise
before `end_time`/`duration` are stored. -/
def endRstKey (p : Packet) (k : CKey) (s : St1) : St1 ⊕ St1 :=
  match lookupA s.connections k with
  | none => Sum.inr s
  | some _ =>
    let s := { s with connectionEnds := insertA s.connectionEnds k Term.RST }
    match getTs1 p s with
    | Sum.inl s => Sum.inl s
    | Sum.inr t => Sum.inr (modConn s k (fun c =>
        { c with endTime := some t, duration := some (t - c.startTime) }))

/-- Lines 69-75: RST counting and the loop over both key directions. -/
def rstBranch1 (p : Packet) (s : St1) : St1 ⊕ St1 :=
  if p.flags.rst then
    andThen1 (endRstKey p (fwdKey p) { s with rstCount := s.rstCount + 1 })
      (endRstKey p (revKey p))
  else Sum.inr s

/-- One iteration of the FIN loop body (lines 80-84): guarded by
`key in connections and key not in connection_ends`. -/
def endFinKey (p : Packet) (k : CKey) (s : St1) : St1 ⊕ St1 :=
  if (lookupA s.connections k).isSome && (lookupA s.connectionEnds k).isNone then
    let s := { s with connectionEnds := insertA s.connectionEnds k Term.FIN }
    match getTs1 p s with
    | Sum.inl s => Sum.inl s
    | Sum.inr t => Sum.inr (modConn s k (fun c =>
        { c with endTime := some t, duration := some (t - c.startTime) }))
  else Sum.inr s

/-- Lines 78-84: FIN counting and the loop over both key directions. -/
def finBranch1 (p : Packet) (s : St1) : St1 ⊕ St1 :=
  if p.flags.fin then
    andThen1 (endFinKey p (fwdKey p) { s with finCount := s.finCount + 1 })
      (endFinKey p (revKey p))
  else Sum.inr s

/-- Loop body of lines 90-96 for one key direction. -/
def reqUpd (h : HttpInfo) (s : St1) (k : CKey) : St1 :=
  if (lookupA s.connections k).isSome then
    modConn s k (fun c =>
      { c with hasHttpRequest := true, httpMethod := some h.method, httpUri := some h.uri })
  else s

/-- Loop body of lines 100-110 for one key direction. -/
def respUpd (h : HttpInfo) (s : St1) (k : CKey) : St1 :=
  if (lookupA s.connections k).isSome then
    let s := modConn s k (fun c =>
      { c with hasHttpResponse := true, httpStatus := some h.status })
    let s := { s with httpResponses := insertA s.httpResponses k h.status }
    match h.conn with
    | some c =>
      if c.hasClose then
        { modConn s k (fun r => { r with hasConnectionClose := true }) with
          closeHeaders := s.closeHeaders + 1 }
      else s
    | none => s
  else s

/-- Lines 88-96: count the request and run the loop over both directions. -/
def httpReqStage (h : HttpInfo) (p : Packet) (s : St1) : St1 :=
  if h.isReq then
    reqUpd h (reqUpd h { s with httpRequests := s.httpRequests + 1 } (fwdKey p)) (revKey p)
  else s

/-- Lines 98-110: count the response and run the loop over both directions. -/
def httpRespStage (h : HttpInfo) (p : Packet) (s : St1) : St1 :=
  if h.isResp then
    respUpd h (respUpd h { s with httpResponsesCount := s.httpResponsesCount + 1 } (fwdKey p))
      (revKey p)
  else s

/-- Lines 87-110: HTTP request/response bookkeeping over both key
directions (no timestamp conversion occurs here). -/
def httpBranch1 (p : Packet) (s : St1) : St1 :=
  match p.http with
  | none => s
  | some h => httpRespStage h p (httpReqStage h p s)

/-- The body of the `try` block of `analyze_fasthttp_connections`. -/
def w1try (s : St1) (p : Packet) : St1 ⊕ St1 :=
  if p.tcp then
    andThen1 (estBranch p s) (fun s =>
      andThen1 (rstBranch1 p s) (fun s =>
        andThen1 (finBranch1 p s) (fun s =>
          Sum.inr (httpBranch1 p s))))
  else Sum.inr s

/-- One iteration of the wireshark1.py packet loop. -/
def w1step (s : St1) (p : Packet) : St1 :=
  match w1try s p with
  | Sum.inl s => s
  | Sum.inr s => s

def run1From (s : St1) (tr : List Packet) : St1 :=
  tr.foldl w1step s

/-- The whole packet loop of `analyze_fasthttp_connections`. -/
def run1 (tr : List Packet) : St1 :=
  run1From initSt1 tr

/-- A trace of packet records whose timestamps all convert. -/
def goodTrace (tr : List Packet) : Prop :=
  ∀ p ∈ tr, p.tsBad = false

instance goodTraceDecidable (tr : List Packet) : Decidable (goodTrace tr) := by
  unfold goodTrace
  infer_instance

/-! ### Dictionary lemmas -/

theorem lookupA_insertA {K V : Type} [DecidableEq K] (d : List (K × V)) (k k' : K) (v : V) :
    lookupA (insertA d k v) k' = if k' = k then some v else lookupA d k' := by
  induction d with
  | nil => simp [insertA, lookupA]
  | cons h t ih =>
    obtain ⟨k'', v''⟩ := h
    by_cases hk : k = k''
    · subst hk
      by_cases hk' : k' = k <;> simp [insertA, lookupA, hk']
    · by_cases hk' : k' = k''
      · subst hk'
        simp [insertA, lookupA, hk, Ne.symm hk]
      · simp [insertA, lookupA, hk, hk', ih]

theorem lookupA_updateA {K V : Type} [DecidableEq K] (d : List (K × V)) (k k' : K)
    (dflt : V) (f : V → V) :
    lookupA (updateA d k dflt f) k' =
      if k' = k then some (f ((lookupA d k).getD dflt)) else lookupA d k' := by
  unfold updateA
  exact lookupA_insertA d k k' _

def keysA {K V : Type} (d : List (K × V)) : List K :=
  d.map Prod.fst

theorem keysA_insertA {K V : Type} [DecidableEq K] (d : List (K × V)) (k : K) (v : V) :
    keysA (insertA d k v) = if (lookupA d k).isSome then keysA d else keysA d ++ [k] := by
  induction d with
  | nil => simp [insertA, keysA, lookupA]
  | cons h t ih =>
    obtain ⟨k'', v''⟩ := h
    by_cases hk : k = k''
    · subst hk
      simp [insertA, keysA, lookupA]
    · simp only [insertA, lookupA, if_neg hk]
      simp only [keysA, List.map_cons] at ih ⊢
      rw [ih]
      by_cases hm : (lookupA t k).isSome <;> simp [hm]

theorem lookupA_isSome_iff {K V : Type} [DecidableEq K] (d : List (K × V)) (k : K) :
    (lookupA d k).isSome ↔ k ∈ keysA d := by
  induction d with
  | nil => simp [lookupA, keysA]
  | cons h t ih =>
    obtain ⟨k'', v''⟩ := h
    by_cases hk : k = k''
    · subst hk
      simp [lookupA, keysA]
    · simp [lookupA, keysA, hk, ih]

theorem nodup_keysA_insertA {K V : Type} [DecidableEq K] (d : List (K × V)) (k : K) (v : V)
    (h : (keysA d).Nodup) : (keysA (insertA d k v)).Nodup := by
  rw [keysA_insertA]
  by_cases hm : (lookupA d k).isSome
  · simpa [hm]
  · have hk : k ∉ keysA d := fun hmem => hm ((lookupA_isSome_iff d k).mpr hmem)
    simp [hm, List.nodup_append, h, hk]

theorem lookupA_eq_some_of_mem {K V : Type} [DecidableEq K] {d : List (K × V)} {k : K} {v : V}
    (hn : (keysA d).Nodup) (hm : (k, v) ∈ d) : lookupA d k = some v := by
  induction d with
  | nil => simp at hm
  | cons h t ih =>
    obtain ⟨k'', v''⟩ := h
    have hn' : k'' ∉ keysA t ∧ (keysA t).Nodup := by
      simpa [keysA] using hn
    simp only [List.mem_cons] at hm
    rcases hm with h1 | h2
    · rw [Prod.mk.injEq] at h1
      obtain ⟨rfl, rfl⟩ := h1
      simp [lookupA]
    · have hk : k ≠ k'' := by
        rintro rfl
        exact hn'.1 (by simpa [keysA] using List.mem_map_of_mem Prod.fst h2)
      simp only [lookupA, if_neg hk]
      exact ih hn'.2 h2

theorem mem_of_lookupA_eq_some {K V : Type} [DecidableEq K] {d : List (K × V)} {k : K} {v : V}
    (h : lookupA d k = some v) : (k, v) ∈ d := by
  induction d with
  | nil => simp [lookupA] at h
  | cons hd t ih =>
    obtain ⟨k'', v''⟩ := hd
    by_cases hk : k = k''
    · subst hk
      simp only [lookupA, if_true, eq_self_iff_true, Option.some.injEq] at h
      subst h
      simp
    · simp only [lookupA, if_neg hk] at h
      exact List.mem_cons_of_mem _ (ih h)

theorem mem_addSet {A : Type} [DecidableEq A] (l : List A) (x y : A) :
    y ∈ addSet l x ↔ y ∈ l ∨ y = x := by
  unfold addSet
  by_cases hx : x ∈ l
  · simp only [if_pos hx]
    constructor
    · exact Or.inl
    · rintro (h | rfl)
      · exact h
      · exact hx
  · simp [if_neg hx]

theorem nodup_addSet {A : Type} [DecidableEq A] (l : List A) (x : A)
    (h : l.Nodup) : (addSet l x).Nodup := by
  unfold addSet
  by_cases hx : x ∈ l
  · simpa [hx]
  · simp [hx, List.nodup_append, h]

theorem length_addSet_pos_iff {A : Type} [DecidableEq A] (l : List A) (x : A)
    (hn : l.Nodup) : 1 < (addSet l x).length ↔ ∃ y ∈ l, y ≠ x := by
  unfold addSet
  by_cases hx : x ∈ l
  · simp only [if_pos hx]
    constructor
    · intro hlen
      have h1 : 0 < (l.erase x).length := by
        rw [List.length_erase_of_mem hx]
        omega
      obtain ⟨y, hy⟩ := List.exists_mem_of_length_pos h1
      exact ⟨y, ((List.Nodup.mem_erase_iff hn).mp hy).2,
        ((List.Nodup.mem_erase_iff hn).mp hy).1⟩
    · rintro ⟨y, hy, hyx⟩
      rcases l with _ | ⟨a, t⟩
      · simp at hx
      · rcases t with _ | ⟨b, t'⟩
        · simp only [List.mem_singleton] at hx hy
          exact absurd (hy.trans hx.symm) hyx
        · simp
  · simp only [if_neg hx, List.length_append, List.length_singleton]
    constructor
    · intro hlen
      rcases l with _ | ⟨a, t⟩
      · simp at hlen
      · exact ⟨a, by simp, by rintro rfl; simp at hx⟩
    · rintro ⟨y, hy, _⟩
      have : 0 < l.length := List.length_pos.mpr (by rintro rfl; simp at hy)
      omega

/-! ### Effect of one wireshark3.py step on each state component -/

/-- The state a `try` body leaves behind, whether or not it raised. -/
def resOf : St ⊕ St → St
  | Sum.inl s => s
  | Sum.inr s => s

theorem w3step_eq_resOf (s : St) (p : Packet) : w3step s p = resOf (w3try s p) := by
  unfold w3step resOf
  cases w3try s p <;> rfl

theorem resOf_andThen (P : St → Prop) (r : St ⊕ St) (f : St → St ⊕ St)
    (h1 : P (resOf r)) (h2 : ∀ s, P s → P (resOf (f s))) : P (resOf (andThen r f)) := by
  cases r with
  | inl s => exact h1
  | inr s => exact h2 s h1

@[simp] theorem modStream_httpRequests (s : St) (sid : ℕ) (f : SRec → SRec) :
    (modStream s sid f).httpRequests = s.httpRequests := rfl

@[simp] theorem modStream_httpResponses (s : St) (sid : ℕ) (f : SRec → SRec) :
    (modStream s sid f).httpResponses = s.httpResponses := rfl

@[simp] theorem modStream_rstAfterResponse (s : St) (sid : ℕ) (f : SRec → SRec) :
    (modStream s sid f).rstAfterResponse = s.rstAfterResponse := rfl

@[simp] theorem modStream_totalRst (s : St) (sid : ℕ) (f : SRec → SRec) :
    (modStream s sid f).totalRst = s.totalRst := rfl

@[simp] theorem modStream_totalFin (s : St) (sid : ℕ) (f : SRec → SRec) :
    (modStream s sid f).totalFin = s.totalFin := rfl

@[simp] theorem modStream_reused (s : St) (sid : ℕ) (f : SRec → SRec) :
    (modStream s sid f).reused = s.reused := rfl

@[simp] theorem modStream_portsByIp (s : St) (sid : ℕ) (f : SRec → SRec) :
    (modStream s sid f).portsByIp = s.portsByIp := rfl

@[simp] theorem modStream_keepalive (s : St) (sid : ℕ) (f : SRec → SRec) :
    (modStream s sid f).keepalive = s.keepalive := rfl

theorem portTrack_proj (s : St) (p : Packet) :
    (portTrack s p).tcpStreams = s.tcpStreams
    ∧ (portTrack s p).httpRequests = s.httpRequests
    ∧ (portTrack s p).httpResponses = s.httpResponses
    ∧ (portTrack s p).rstAfterResponse = s.rstAfterResponse
    ∧ (portTrack s p).totalRst = s.totalRst
    ∧ (portTrack s p).totalFin = s.totalFin
    ∧ (portTrack s p).keepalive = s.keepalive := by
  simp only [portTrack]
  split <;> simp

@[simp] theorem portTrack_tcpStreams (s : St) (p : Packet) :
    (portTrack s p).tcpStreams = s.tcpStreams := (portTrack_proj s p).1

@[simp] theorem portTrack_httpRequests (s : St) (p : Packet) :
    (portTrack s p).httpRequests = s.httpRequests := (portTrack_proj s p).2.1

@[simp] theorem portTrack_httpResponses (s : St) (p : Packet) :
    (portTrack s p).httpResponses = s.httpResponses := (portTrack_proj s p).2.2.1

@[simp] theorem portTrack_rstAfterResponse (s : St) (p : Packet) :
    (portTrack s p).rstAfterResponse = s.rstAfterResponse := (portTrack_proj s p).2.2.2.1

@[simp] theorem portTrack_totalRst (s : St) (p : Packet) :
    (portTrack s p).totalRst = s.totalRst := (portTrack_proj s p).2.2.2.2.1

@[simp] theorem portTrack_totalFin (s : St) (p : Packet) :
    (portTrack s p).totalFin = s.totalFin := (portTrack_proj s p).2.2.2.2.2.1

theorem markerBlock_proj (s : St) (p : Packet) :
    (markerBlock p s).tcpStreams = s.tcpStreams
    ∧ (markerBlock p s).httpRequests = s.httpRequests
    ∧ (markerBlock p s).httpResponses = s.httpResponses
    ∧ (markerBlock p s).rstAfterResponse = s.rstAfterResponse
    ∧ (markerBlock p s).totalRst = s.totalRst
    ∧ (markerBlock p s).totalFin = s.totalFin
    ∧ (markerBlock p s).reused = s.reused
    ∧ (markerBlock p s).portsByIp = s.portsByIp := by
  simp only [markerBlock]
  split <;> split <;> split <;> simp

@[simp] theorem markerBlock_tcpStreams (s : St) (p : Packet) :
    (markerBlock p s).tcpStreams = s.tcpStreams := (markerBlock_proj s p).1

@[simp] theorem markerBlock_httpRequests (s : St) (p : Packet) :
    (markerBlock p s).httpRequests = s.httpRequests := (markerBlock_proj s p).2.1

@[simp] theorem markerBlock_httpResponses (s : St) (p : Packet) :
    (markerBlock p s).httpResponses = s.httpResponses := (markerBlock_proj s p).2.2.1

@[simp] theorem markerBlock_rstAfterResponse (s : St) (p : Packet) :
    (markerBlock p s).rstAfterResponse = s.rstAfterResponse := (markerBlock_proj s p).2.2.2.1

@[simp] theorem markerBlock_reused (s : St) (p : Packet) :
    (markerBlock p s).reused = s.reused := (markerBlock_proj s p).2.2.2.2.2.2.1

@[simp] theorem markerBlock_portsByIp (s : St) (p : Packet) :
    (markerBlock p s).portsByIp = s.portsByIp := (markerBlock_proj s p).2.2.2.2.2.2.2

theorem lookupA_modStream (s : St) (sid : ℕ) (f : SRec → SRec) (sid' : ℕ) :
    lookupA (modStream s sid f).tcpStreams sid' =
      if sid' = sid then some (f ((lookupA s.tcpStreams sid).getD {})) else
        lookupA s.tcpStreams sid' := by
  unfold modStream
  exact lookupA_updateA _ _ _ _ _

theorem run3From_append (s : St) (tr1 tr2 : List Packet) :
    run3From s (tr1 ++ tr2) = run3From (run3From s tr1) tr2 := by
  simp [run3From, List.foldl_append]

theorem run1From_append (s : St1) (tr1 tr2 : List Packet) :
    run1From s (tr1 ++ tr2) = run1From (run1From s tr1) tr2 := by
  simp [run1From, List.foldl_append]

@[simp] theorem resOf_inl (s : St) : resOf (Sum.inl s) = s := rfl

@[simp] theorem resOf_inr (s : St) : resOf (Sum.inr s) = s := rfl

/-! ### Claim C10: exception handling is per-packet but not atomic -/

/-- A RST packet whose timestamp string fails to convert: the RST counter and
`has_rst` land before the failure, `rst_time` and the packet/timestamp
bookkeeping are skipped. -/
def badRstPkt : Packet :=
  { stream := 1, srcIp := 3, dstIp := 4, srcPort := 30, dstPort := 40,
    ts := 0, tsBad := true, flags := { rst := true } }

/-- A well-formed FIN packet on the same flow, arriving later. -/
def finOkPkt : Packet :=
  { stream := 1, srcIp := 3, dstIp := 4, srcPort := 30, dstPort := 40,
    ts := 5, flags := { fin := true } }

/-- Claim C10: skipping a malformed packet event is not atomic.  Processing
always continues with the next packet (the loop is a fold, so the remaining
events are processed from whatever state the failed packet left), and the
mutations already applied for the failed packet are retained: after a RST
packet whose timestamp conversion raises, the global RST counter is 1 and the
stream shows `has_rst = true` with no `rst_time`, while the following
well-formed FIN event is fully processed on top of that state. -/
theorem c10_exception_skip_not_atomic :
    (∀ (s : St) (tr1 : List Packet) (p : Packet) (tr2 : List Packet),
        run3From s (tr1 ++ p :: tr2) = run3From (w3step (run3From s tr1) p) tr2)
    ∧ (run3 [badRstPkt, finOkPkt]).totalRst = 1
    ∧ (run3 [badRstPkt, finOkPkt]).totalFin = 1
    ∧ lookupA (run3 [badRstPkt, finOkPkt]).tcpStreams 1 =
        some { hasRst := true, hasFin := true, finTime := some 5, finFrom := some 3,
               packets := 1, lastPacketTime := some 5, packetTimestamps := [5] } := by
  refine ⟨?_, by decide, by decide, by decide⟩
  intro s tr1 p tr2
  rw [run3From_append]
  rfl

/-! ### Claim C5: the post-pass aborts on streams without first_packet_time -/

/-- A single well-formed SYN packet: the stream record is created empty by the
SYN branch, so `first_packet_time` is never stored. -/
def c5SynPkt : Packet := { stream := 0, ts := 0, flags := { syn := true } }

/-- Claim C5 (code bug): the post-pass does not survive a stream whose record
misses `first_packet_time`.  After a capture consisting of one well-formed SYN
packet, the stream record exists without `first_packet_time`, and the
duration loop's direct indexing aborts the whole pass (`analysisPass` returns
`none`), instead of excluding the stream and completing the remaining
checks. -/
theorem c5_detector_pass_aborts :
    analysisPass (run3 [c5SynPkt]) = none
    ∧ lookupA (run3 [c5SynPkt]).tcpStreams 0 =
        some { hasSyn := true, synTime := some 0, packets := 1,
               lastPacketTime := some 0, packetTimestamps := [0] } :=
  ⟨by decide, by decide⟩

theorem getTs_bad {p : Packet} (s : St) (hb : p.tsBad = true) : getTs p s = Sum.inl s := by
  simp [getTs, hb]

theorem getTs_good {p : Packet} (s : St) (hb : p.tsBad = false) : getTs p s = Sum.inr p.ts := by
  simp [getTs, hb]

/-! ### Claim C4: the incomplete-transaction list is unsatisfiable -/

/-- Every `rst_after_response` item was recorded while its stream had an entry
in `http_responses_by_stream` — an entry that is never removed. -/
def RA (s : St) : Prop :=
  ∀ it ∈ s.rstAfterResponse, (lookupA s.httpResponses it.stream).isSome

theorem RA_of_fields_eq {s s' : St} (h1 : s'.rstAfterResponse = s.rstAfterResponse)
    (h2 : s'.httpResponses = s.httpResponses) (h : RA s) : RA s' := by
  unfold RA at h ⊢
  rw [h1, h2]
  exact h

theorem isSome_lookupA_insertA {K V : Type} [DecidableEq K] (d : List (K × V)) (k k' : K)
    (v : V) (h : (lookupA d k').isSome) : (lookupA (insertA d k v) k').isSome := by
  rw [lookupA_insertA]
  split <;> simp [h]

theorem isSome_lookupA_updateA {K V : Type} [DecidableEq K] (d : List (K × V)) (k k' : K)
    (dflt : V) (f : V → V) (h : (lookupA d k').isSome) :
    (lookupA (updateA d k dflt f) k').isSome := by
  rw [lookupA_updateA]
  split <;> simp [h]

theorem RA_synBranch (p : Packet) (s : St) (h : RA s) : RA (resOf (synBranch p s)) := by
  unfold synBranch
  split
  · cases hb : p.tsBad
    · simp only [getTs_good _ hb, resOf_inr]
      exact RA_of_fields_eq (by simp) (by simp) h
    · simp only [getTs_bad _ hb, resOf_inl]
      exact RA_of_fields_eq (by simp) (by simp) h
  · exact h

theorem RA_rstBranch (p : Packet) (s : St) (h : RA s) : RA (resOf (rstBranch p s)) := by
  unfold rstBranch
  split
  · cases hb : p.tsBad
    · simp only [getTs_good _ hb, resOf_inr]
      split
      case isTrue hsome =>
        simp only [resOf_inr]
        intro it hit
        simp only [modStream_httpResponses] at hsome ⊢
        simp only [List.mem_append, List.mem_singleton] at hit
        rcases hit with hold | rfl
        · exact h it (by simpa using hold)
        · simpa using hsome
      case isFalse =>
        exact RA_of_fields_eq (by simp) (by simp) h
    · simp only [getTs_bad _ hb, resOf_inl]
      exact RA_of_fields_eq (by simp) (by simp) h
  · exact h

theorem RA_finBranch (p : Packet) (s : St) (h : RA s) : RA (resOf (finBranch p s)) := by
  unfold finBranch
  split
  · cases hb : p.tsBad
    · simp only [getTs_good _ hb, resOf_inr]
      exact RA_of_fields_eq (by simp) (by simp) h
    · simp only [getTs_bad _ hb, resOf_inl]
      exact RA_of_fields_eq (by simp) (by simp) h
  · exact h

theorem RA_trackBranch (p : Packet) (s : St) (h : RA s) : RA (resOf (trackBranch p s)) := by
  unfold trackBranch
  apply resOf_andThen
  · split <;> (cases hb : p.tsBad
               · simp only [getTs_good _ hb, resOf_inr]
                 exact RA_of_fields_eq (by simp) (by simp) h
               · simp only [getTs_bad _ hb, resOf_inl]
                 exact RA_of_fields_eq (by simp) (by simp) h)
  · intro s' h'
    exact RA_of_fields_eq (by simp) (by simp) h'

theorem RA_ensure_resp (s : St) (sid : ℕ) (h : RA s) :
    RA (if (lookupA s.httpResponses sid).isNone then
        { s with httpResponses := insertA s.httpResponses sid [] } else s) := by
  split
  · intro it hit
    simp only at hit ⊢
    exact isSome_lookupA_insertA _ _ _ _ (h it hit)
  · exact h

theorem RA_append_resp (s : St) (sid : ℕ) (info : RespInfo) (h : RA s) :
    RA { s with httpResponses := updateA s.httpResponses sid [] (fun l => l ++ [info]) } := by
  intro it hit
  simp only at hit ⊢
  exact isSome_lookupA_updateA _ _ _ _ _ (h it hit)

theorem RA_httpBranch (p : Packet) (s : St) (h : RA s) : RA (resOf (httpBranch p s)) := by
  unfold httpBranch
  split
  · exact h
  · apply resOf_andThen
    · split
      · cases hb : p.tsBad
        · simp only [getTs_good _ hb, resOf_inr]
          split <;> split <;>
            exact RA_of_fields_eq (by first | (split <;> simp) | simp)
              (by first | (split <;> simp) | simp) h
        · simp only [getTs_bad _ hb, resOf_inl]
          split <;> exact RA_of_fields_eq (by simp) (by simp) h
      · exact h
    · intro s' h'
      split
      · cases hb : p.tsBad
        · simp only [getTs_good _ hb, resOf_inr]
          apply RA_append_resp
          have hS1 := RA_ensure_resp s' p.stream h'
          split
          · split
            · exact RA_of_fields_eq (by simp) (by simp) hS1
            · exact hS1
          · exact hS1
        · simp only [getTs_bad _ hb, resOf_inl]
          exact RA_ensure_resp s' p.stream h'
      · exact h'

theorem RA_w3step (s : St) (p : Packet) (h : RA s) : RA (w3step s p) := by
  rw [w3step_eq_resOf]
  unfold w3try
  by_cases htcp : p.tcp
  · simp only [htcp, if_true]
    apply resOf_andThen _ _ _ (RA_synBranch p _ (RA_of_fields_eq (by simp) (by simp) h))
    intro s1 h1
    have h1' : RA (ackBranch p (synAckBranch p s1)) := by
      apply RA_of_fields_eq (s := s1)
      · unfold ackBranch synAckBranch
        split <;> split <;> simp
      · unfold ackBranch synAckBranch
        split <;> split <;> simp
      · exact h1
    apply resOf_andThen _ _ _ (RA_rstBranch p _ h1')
    intro s2 h2
    apply resOf_andThen _ _ _ (RA_finBranch p _ h2)
    intro s3 h3
    apply resOf_andThen _ _ _ (RA_trackBranch p _ h3)
    intro s4 h4
    apply resOf_andThen _ _ _ (RA_httpBranch p _ h4)
    intro s5 h5
    exact RA_of_fields_eq (by simp) (by simp) h5
  · simpa [htcp] using h

theorem RA_run3From (s : St) (tr : List Packet) (h : RA s) : RA (run3From s tr) := by
  induction tr generalizing s with
  | nil => exact h
  | cons p t ih => exact ih (w3step s p) (RA_w3step s p h)

theorem RA_run3 (tr : List Packet) : RA (run3 tr) := by
  apply RA_run3From
  intro it hit
  simp [initSt] at hit

theorem mem_foldl_addSet (l : List RstEvt) (acc : List ℕ) (x : ℕ) :
    x ∈ l.foldl (fun acc it => addSet acc it.stream) acc ↔
      x ∈ acc ∨ ∃ it ∈ l, it.stream = x := by
  induction l generalizing acc with
  | nil => simp
  | cons a t ih =>
    simp only [List.foldl_cons, ih, mem_addSet, List.mem_cons]
    constructor
    · rintro ((h | rfl) | ⟨it, hit, rfl⟩)
      · exact Or.inl h
      · exact Or.inr ⟨a, Or.inl rfl, rfl⟩
      · exact Or.inr ⟨it, Or.inr hit, rfl⟩
    · rintro (h | ⟨it, (rfl | hit), rfl⟩)
      · exact Or.inl (Or.inl h)
      · exact Or.inl (Or.inr rfl)
      · exact Or.inr ⟨it, hit, rfl⟩

theorem mem_rstStreams_iff (s : St) (x : ℕ) :
    x ∈ rstStreamsAfterResponse s ↔ ∃ it ∈ s.rstAfterResponse, it.stream = x := by
  unfold rstStreamsAfterResponse
  rw [mem_foldl_addSet]
  simp

theorem incompleteStreams_eq_nil_of_RA (s : St) (h : RA s) : incompleteStreams s = [] := by
  unfold incompleteStreams
  rw [List.filter_eq_nil_iff]
  intro sid _
  intro hcontr
  obtain ⟨h1, h2⟩ := (Bool.and_eq_true _ _).mp hcontr
  have hmem : sid ∈ rstStreamsAfterResponse s := by
    simpa [List.contains, List.elem_iff] using h2
  obtain ⟨it, hit, rfl⟩ := (mem_rstStreams_iff s sid).mp hmem
  have := h it hit
  simp only [Bool.not_eq_true'] at h1
  rw [memA] at h1
  rw [h1] at this
  exact Bool.false_ne_true this

/-- The stream of the C4 failing input: one HTTP request, then a RST, and no
response ever observed. -/
def c4ReqPkt : Packet :=
  { stream := 1, srcIp := 1, dstIp := 2, srcPort := 5000, dstPort := 80,
    ts := 0, http := some { isReq := true, method := 1, uri := 1 } }

def c4RstPkt : Packet :=
  { stream := 1, srcIp := 2, dstIp := 1, srcPort := 80, dstPort := 5000,
    ts := 1, flags := { rst := true } }

def c4Trace : List Packet := [c4ReqPkt, c4RstPkt]

/-- Claim C4 (code bug): the incomplete-transaction check can never flag any
stream.  Membership in `rst_streams_after_response` requires a response entry
at RST time, while the filter demands that no response entry exists, and
response entries are never removed — so `incomplete_streams` is `[]` for
every input.  In particular, on a capture whose only stream has one request,
no response, and a terminating RST, the stream satisfies all three spec
conditions yet is not flagged. -/
theorem c4_incomplete_never_flagged :
    (∀ tr : List Packet, incompleteStreams (run3 tr) = [])
    ∧ memA (run3 c4Trace).httpRequests 1 = true
    ∧ memA (run3 c4Trace).httpResponses 1 = false
    ∧ (lookupA (run3 c4Trace).tcpStreams 1).map SRec.hasRst = some true := by
  refine ⟨fun tr => incompleteStreams_eq_nil_of_RA _ (RA_run3 tr), by decide, by decide, by decide⟩

/-! ### Claim C8: packet counter vs timestamp list, and byte counter sign -/

/-- Every stream record keeps `packets == len(packet_timestamps)`. -/
def I1 (s : St) : Prop :=
  ∀ sid r, lookupA s.tcpStreams sid = some r → r.packets = r.packetTimestamps.length

theorem I1_of_fields_eq {s s' : St} (h1 : s'.tcpStreams = s.tcpStreams) (h : I1 s) : I1 s' := by
  unfold I1 at h ⊢
  rw [h1]
  exact h

theorem I1_modStream (s : St) (sid : ℕ) (f : SRec → SRec)
    (hf : ∀ r, (f r).packets = r.packets ∧ (f r).packetTimestamps = r.packetTimestamps)
    (h : I1 s) : I1 (modStream s sid f) := by
  intro sid' r hr
  rw [modStream, lookupA_updateA] at hr
  split at hr
  · obtain rfl := Option.some.injEq .. ▸ hr.symm
    obtain ⟨hp, ht⟩ := hf ((lookupA s.tcpStreams sid).getD {})
    rw [hp, ht]
    cases hl : lookupA s.tcpStreams sid with
    | none => simp [hl]
    | some r0 => simpa [hl] using h sid r0 hl
  · exact h sid' r hr

theorem I1_synBranch (p : Packet) (s : St) (h : I1 s) : I1 (resOf (synBranch p s)) := by
  unfold synBranch
  split
  · cases hb : p.tsBad
    · simp only [getTs_good _ hb, resOf_inr]
      exact I1_modStream _ _ _ (by simp) (I1_modStream _ _ _ (by simp) h)
    · simp only [getTs_bad _ hb, resOf_inl]
      exact I1_modStream _ _ _ (by simp) h
  · exact h

theorem I1_rstBranch (p : Packet) (s : St) (h : I1 s) : I1 (resOf (rstBranch p s)) := by
  unfold rstBranch
  split
  · cases hb : p.tsBad
    · simp only [getTs_good _ hb, resOf_inr]
      have hx : I1 (modStream (modStream { s with totalRst := s.totalRst + 1 }
          p.stream (fun r => { r with hasRst := true })) p.stream
          (fun r => { r with rstTime := some p.ts, rstFrom := some p.srcIp })) :=
        I1_modStream _ _ _ (by simp) (I1_modStream _ _ _ (by simp) h)
      split <;> simp only [resOf_inr] <;> (intro sid r hr; exact hx sid r hr)
    · simp only [getTs_bad _ hb, resOf_inl]
      exact I1_modStream _ _ _ (by simp) h
  · exact h

theorem I1_finBranch (p : Packet) (s : St) (h : I1 s) : I1 (resOf (finBranch p s)) := by
  unfold finBranch
  split
  · cases hb : p.tsBad
    · simp only [getTs_good _ hb, resOf_inr]
      exact I1_modStream _ _ _ (by simp) (I1_modStream _ _ _ (by simp) h)
    · simp only [getTs_bad _ hb, resOf_inl]
      exact I1_modStream _ _ _ (by simp) h
  · exact h

theorem I1_trackBranch (p : Packet) (s : St) (h : I1 s) : I1 (resOf (trackBranch p s)) := by
  unfold trackBranch
  cases hb : p.tsBad
  · simp only [getTs_good _ hb]
    split
    case isTrue hnone =>
      simp only [andThen, resOf_inr]
      intro sid r hr
      by_cases hsid : sid = p.stream
      · subst hsid
        simp [modStream, lookupA_updateA, lookupA_insertA] at hr
        subst hr
        simp [freshRec]
      · simp [modStream, lookupA_updateA, lookupA_insertA, hsid] at hr
        exact h sid r hr
    case isFalse hsome =>
      simp only [andThen, resOf_inr]
      intro sid r hr
      by_cases hsid : sid = p.stream
      · subst hsid
        cases hl : lookupA s.tcpStreams p.stream with
        | none => simp [hl] at hsome
        | some r0 =>
          simp [modStream, lookupA_updateA, hl] at hr
          subst hr
          simp [h p.stream r0 hl]
      · simp [modStream, lookupA_updateA, hsid] at hr
        exact h sid r hr
  · simp only [getTs_bad _ hb]
    split <;> simp only [andThen, resOf_inl] <;> exact h

theorem I1_httpBranch (p : Packet) (s : St) (h : I1 s) : I1 (resOf (httpBranch p s)) := by
  unfold httpBranch
  split
  · exact h
  · apply resOf_andThen
    · split
      · cases hb : p.tsBad
        · simp only [getTs_good _ hb, resOf_inr]
          repeat' split
          all_goals (intro sid r hr; exact h sid r hr)
        · simp only [getTs_bad _ hb, resOf_inl]
          repeat' split
          all_goals (intro sid r hr; exact h sid r hr)
      · exact h
    · intro s' h'
      split
      · cases hb : p.tsBad
        · simp only [getTs_good _ hb, resOf_inr]
          repeat' split
          all_goals (intro sid r hr; exact h' sid r hr)
        · simp only [getTs_bad _ hb, resOf_inl]
          repeat' split
          all_goals (intro sid r hr; exact h' sid r hr)
      · exact h'

theorem I1_w3step (s : St) (p : Packet) (h : I1 s) : I1 (w3step s p) := by
  rw [w3step_eq_resOf]
  unfold w3try
  by_cases htcp : p.tcp
  · simp only [htcp, if_true]
    apply resOf_andThen _ _ _ (I1_synBranch p _ (I1_of_fields_eq (by simp) h))
    intro s1 h1
    have h1' : I1 (ackBranch p (synAckBranch p s1)) := by
      unfold ackBranch synAckBranch
      split <;> split <;>
        first
          | exact I1_modStream _ _ _ (by simp) (I1_modStream _ _ _ (by simp) h1)
          | exact I1_modStream _ _ _ (by simp) h1
          | exact h1
    apply resOf_andThen _ _ _ (I1_rstBranch p _ h1')
    intro s2 h2
    apply resOf_andThen _ _ _ (I1_finBranch p _ h2)
    intro s3 h3
    apply resOf_andThen _ _ _ (I1_trackBranch p _ h3)
    intro s4 h4
    apply resOf_andThen _ _ _ (I1_httpBranch p _ h4)
    intro s5 h5
    exact I1_of_fields_eq (by simp) h5
  · simpa [htcp] using h

theorem I1_run3From (s : St) (tr : List Packet) (h : I1 s) : I1 (run3From s tr) := by
  induction tr generalizing s with
  | nil => exact h
  | cons p t ih => exact ih (w3step s p) (I1_w3step s p h)

theorem I1_run3 (tr : List Packet) : I1 (run3 tr) := by
  apply I1_run3From
  intro sid r hr
  simp [initSt, lookupA] at hr

/-- Every connection record of wireshark1.py keeps a nonnegative byte count. -/
def B1 (s : St1) : Prop :=
  ∀ k c, lookupA s.connections k = some c → 0 ≤ c.bytes

def resOf1 : St1 ⊕ St1 → St1
  | Sum.inl s => s
  | Sum.inr s => s

@[simp] theorem resOf1_inl (s : St1) : resOf1 (Sum.inl s) = s := rfl

@[simp] theorem resOf1_inr (s : St1) : resOf1 (Sum.inr s) = s := rfl

theorem w1step_eq_resOf1 (s : St1) (p : Packet) : w1step s p = resOf1 (w1try s p) := by
  unfold w1step resOf1
  cases w1try s p <;> rfl

theorem resOf1_andThen1 (P : St1 → Prop) (r : St1 ⊕ St1) (f : St1 → St1 ⊕ St1)
    (h1 : P (resOf1 r)) (h2 : ∀ s, P s → P (resOf1 (f s))) : P (resOf1 (andThen1 r f)) := by
  cases r with
  | inl s => exact h1
  | inr s => exact h2 s h1

theorem getTs1_bad {p : Packet} (s : St1) (hb : p.tsBad = true) : getTs1 p s = Sum.inl s := by
  simp [getTs1, hb]

theorem getTs1_good {p : Packet} (s : St1) (hb : p.tsBad = false) : getTs1 p s = Sum.inr p.ts := by
  simp [getTs1, hb]

theorem B1_modConn (s : St1) (k : CKey) (f : Conn1 → Conn1)
    (hf : ∀ c, 0 ≤ c.bytes → 0 ≤ (f c).bytes) (h : B1 s) : B1 (modConn s k f) := by
  intro k' c hc
  unfold modConn at hc
  cases hl : lookupA s.connections k with
  | none =>
    simp only [hl] at hc
    exact h k' c hc
  | some c0 =>
    simp only [hl] at hc
    rw [lookupA_insertA] at hc
    split at hc
    · obtain rfl := Option.some.injEq .. ▸ hc.symm
      exact hf c0 (h k c0 hl)
    · exact h k' c hc

theorem B1_ackUpd (p : Packet) (s : St1) (k : CKey) (h : B1 s) : B1 (ackUpd p s k) := by
  unfold ackUpd
  split
  · split
    · exact B1_modConn _ _ _ (fun c hc => add_nonneg hc (Int.natCast_nonneg _)) h
    · exact h
  · exact h

theorem B1_estBranch (p : Packet) (s : St1) (h : B1 s) : B1 (resOf1 (estBranch p s)) := by
  unfold estBranch
  split
  · cases hb : p.tsBad
    · simp only [getTs1_good _ hb, resOf1_inr]
      intro k' c hc
      simp only at hc
      rw [lookupA_insertA] at hc
      split at hc
      · obtain rfl := Option.some.injEq .. ▸ hc.symm
        simp
      · exact h k' c hc
    · simp only [getTs1_bad _ hb, resOf1_inl]
      exact h
  · split
    · simp only [resOf1_inr]
      exact B1_modConn _ _ _ (fun c hc => add_nonneg hc (Int.natCast_nonneg _)) h
    · split
      · simp only [resOf1_inr]
        exact B1_ackUpd p _ _ (B1_ackUpd p _ _ h)
      · simpa using h

theorem B1_endRstKey (p : Packet) (k : CKey) (s : St1) (h : B1 s) :
    B1 (resOf1 (endRstKey p k s)) := by
  unfold endRstKey
  split
  · exact h
  · cases hb : p.tsBad
    · simp only [getTs1_good _ hb, resOf1_inr]
      exact B1_modConn _ _ _ (fun c hc => hc) (fun k' c hc => h k' c hc)
    · simp only [getTs1_bad _ hb, resOf1_inl]
      exact fun k' c hc => h k' c hc

theorem B1_endFinKey (p : Packet) (k : CKey) (s : St1) (h : B1 s) :
    B1 (resOf1 (endFinKey p k s)) := by
  unfold endFinKey
  split
  · cases hb : p.tsBad
    · simp only [getTs1_good _ hb, resOf1_inr]
      exact B1_modConn _ _ _ (fun c hc => hc) (fun k' c hc => h k' c hc)
    · simp only [getTs1_bad _ hb, resOf1_inl]
      exact fun k' c hc => h k' c hc
  · exact h

theorem B1_reqUpd (hm : HttpInfo) (s : St1) (k : CKey) (h : B1 s) : B1 (reqUpd hm s k) := by
  unfold reqUpd
  split
  · exact B1_modConn _ _ _ (fun c hc => hc) h
  · exact h

theorem B1_respUpd (hm : HttpInfo) (s : St1) (k : CKey) (h : B1 s) : B1 (respUpd hm s k) := by
  unfold respUpd
  split
  · have h1 : B1 (modConn s k fun c =>
        { c with hasHttpResponse := true, httpStatus := some hm.status }) :=
      B1_modConn _ _ _ (fun c hc => hc) h
    have h2 : B1 { modConn s k (fun c =>
        { c with hasHttpResponse := true, httpStatus := some hm.status }) with
        httpResponses := insertA (modConn s k (fun c =>
          { c with hasHttpResponse := true, httpStatus := some hm.status })).httpResponses
          k hm.status } :=
      fun k'' c'' hc'' => h1 k'' c'' hc''
    have h3 := B1_modConn _ k (fun r => { r with hasConnectionClose := true })
      (fun c hc => hc) h2
    split
    · split
      · exact fun k' c hc => h3 k' c hc
      · exact fun k' c hc => h2 k' c hc
    · exact fun k' c hc => h2 k' c hc
  · exact h

theorem B1_httpReqStage (hm : HttpInfo) (p : Packet) (s : St1) (h : B1 s) :
    B1 (httpReqStage hm p s) := by
  unfold httpReqStage
  split
  · apply B1_reqUpd
    apply B1_reqUpd
    exact fun k' c hc => h k' c hc
  · exact h

theorem B1_httpRespStage (hm : HttpInfo) (p : Packet) (s : St1) (h : B1 s) :
    B1 (httpRespStage hm p s) := by
  unfold httpRespStage
  split
  · apply B1_respUpd
    apply B1_respUpd
    exact fun k' c hc => h k' c hc
  · exact h

theorem B1_httpBranch1 (p : Packet) (s : St1) (h : B1 s) : B1 (httpBranch1 p s) := by
  unfold httpBranch1
  split
  · exact h
  · exact B1_httpRespStage _ p _ (B1_httpReqStage _ p _ h)

theorem B1_w1step (s : St1) (p : Packet) (h : B1 s) : B1 (w1step s p) := by
  rw [w1step_eq_resOf1]
  unfold w1try
  by_cases htcp : p.tcp
  · simp only [htcp, if_true]
    apply resOf1_andThen1 _ _ _ (B1_estBranch p s h)
    intro s1 h1
    have hrst : B1 (resOf1 (rstBranch1 p s1)) := by
      unfold rstBranch1
      split
      · apply resOf1_andThen1
        · apply B1_endRstKey
          exact fun k' c hc => h1 k' c hc
        · intro s2 h2
          exact B1_endRstKey p _ _ h2
      · exact h1
    apply resOf1_andThen1 _ _ _ hrst
    intro s2 h2
    have hfin : B1 (resOf1 (finBranch1 p s2)) := by
      unfold finBranch1
      split
      · apply resOf1_andThen1
        · apply B1_endFinKey
          exact fun k' c hc => h2 k' c hc
        · intro s3 h3
          exact B1_endFinKey p _ _ h3
      · exact h2
    apply resOf1_andThen1 _ _ _ hfin
    intro s3 h3
    exact B1_httpBranch1 p s3 h3
  · simpa [htcp] using h

theorem B1_run1 (tr : List Packet) : B1 (run1 tr) := by
  have base : B1 initSt1 := by
    intro k c hc
    simp [initSt1, lookupA] at hc
  unfold run1
  generalize initSt1 = s0 at base ⊢
  induction tr generalizing s0 with
  | nil => exact base
  | cons p t ih => exact ih (w1step s0 p) (B1_w1step s0 p base)

/-- A plain TCP data packet for stream 1. -/
def c8w3Pkt : Packet :=
  { stream := 1, srcIp := 1, dstIp := 2, srcPort := 5000, dstPort := 80, ts := 0 }

/-- The stream record the tracker builds from `c8w3Pkt` alone. -/
def c8Rec : SRec :=
  { packets := 1, firstPacketTime := some 0, lastPacketTime := some 0,
    clientIp := some 1, serverIp := some 2, clientPort := some 5000,
    serverPort := some 80, packetTimestamps := [0] }

/-- A SYN packet for wireshark1.py carrying 60 wire bytes. -/
def c8w1Pkt : Packet :=
  { srcIp := 1, srcPort := 10, dstIp := 2, dstPort := 20, len := 60, ts := 0,
    flags := { syn := true } }

/-- The connection record the wireshark1.py loop builds from `c8w1Pkt`. -/
def c8Conn : Conn1 := { startTime := 0, bytes := 60 }

/-- Claim C8: for every Stream at the end of any event sequence, the packet
counter equals the length of the timestamp list (each processed packet either
adds one to both or, when its timestamp conversion raises, to neither), and
the byte counter is never negative. -/
theorem c8_packet_count_matches_timestamps :
    (∀ (tr : List Packet) (sid : ℕ) (r : SRec),
        lookupA (run3 tr).tcpStreams sid = some r →
          r.packets = r.packetTimestamps.length)
    ∧ (∀ (tr : List Packet) (k : CKey) (c : Conn1),
        lookupA (run1 tr).connections k = some c → 0 ≤ c.bytes) :=
  ⟨fun tr => I1_run3 tr, fun tr => B1_run1 tr⟩

/-- Witness for C8 at a one-packet capture for each script. -/
theorem c8_packet_count_matches_timestamps_witness :
    c8Rec.packets = c8Rec.packetTimestamps.length ∧ (0 : ℤ) ≤ c8Conn.bytes :=
  ⟨c8_packet_count_matches_timestamps.1 [c8w3Pkt] 1 c8Rec (by decide),
   c8_packet_count_matches_timestamps.2 [c8w1Pkt] (1, 10, 2, 20) c8Conn (by decide)⟩

/-! ### Claim C1: termination bookkeeping of wireshark1.py -/

@[simp] theorem modConn_connectionEnds (s : St1) (k : CKey) (f : Conn1 → Conn1) :
    (modConn s k f).connectionEnds = s.connectionEnds := rfl

theorem ends_ackUpd (p : Packet) (s : St1) (k : CKey) :
    (ackUpd p s k).connectionEnds = s.connectionEnds := by
  unfold ackUpd
  repeat' split
  all_goals rfl

theorem ends_reqUpd (hm : HttpInfo) (s : St1) (k : CKey) :
    (reqUpd hm s k).connectionEnds = s.connectionEnds := by
  unfold reqUpd
  repeat' split
  all_goals rfl

theorem ends_respUpd (hm : HttpInfo) (s : St1) (k : CKey) :
    (respUpd hm s k).connectionEnds = s.connectionEnds := by
  unfold respUpd
  repeat' split
  all_goals rfl

theorem ends_httpBranch1 (p : Packet) (s : St1) :
    (httpBranch1 p s).connectionEnds = s.connectionEnds := by
  unfold httpBranch1 httpReqStage httpRespStage
  split
  · rfl
  · split <;> split <;>
      simp only [ends_respUpd, ends_reqUpd]

theorem ends_estBranch (p : Packet) (s : St1) :
    (resOf1 (estBranch p s)).connectionEnds = s.connectionEnds := by
  unfold estBranch
  split
  · cases hb : p.tsBad
    · simp only [getTs1_good _ hb, resOf1_inr]
    · simp only [getTs1_bad _ hb, resOf1_inl]
  · split
    · rfl
    · split
      · simp only [resOf1_inr, ends_ackUpd]
      · rfl

theorem endFinKey_ends_pres (p : Packet) (k0 k : CKey) (e : Term) (s : St1)
    (h : lookupA s.connectionEnds k = some e) :
    lookupA (resOf1 (endFinKey p k0 s)).connectionEnds k = some e := by
  unfold endFinKey
  split
  case isTrue hguard =>
    have h2 := (Bool.and_eq_true _ _).mp hguard
    have hne : k ≠ k0 := by
      intro heq
      subst heq
      rw [Option.isNone_iff_eq_none] at h2
      rw [h] at h2
      exact Option.some_ne_none e h2.2
    cases hb : p.tsBad
    · simp only [getTs1_good _ hb, resOf1_inr, modConn_connectionEnds]
      show lookupA (insertA s.connectionEnds k0 Term.FIN) k = some e
      rw [lookupA_insertA, if_neg hne]
      exact h
    · simp only [getTs1_bad _ hb, resOf1_inl]
      show lookupA (insertA s.connectionEnds k0 Term.FIN) k = some e
      rw [lookupA_insertA, if_neg hne]
      exact h
  case isFalse => exact h

/-- A FIN-only packet never overwrites an already recorded termination. -/
theorem w1step_fin_preserves_end (s : St1) (p : Packet) (k : CKey) (e : Term)
    (hfin : p.flags.fin = true) (hrst : p.flags.rst = false)
    (h : lookupA s.connectionEnds k = some e) :
    lookupA (w1step s p).connectionEnds k = some e := by
  rw [w1step_eq_resOf1]
  unfold w1try
  by_cases htcp : p.tcp
  · simp only [htcp, if_true]
    apply resOf1_andThen1 (P := fun s' => lookupA s'.connectionEnds k = some e)
    · rw [ends_estBranch]
      exact h
    · intro s1 h1
      apply resOf1_andThen1 (P := fun s' => lookupA s'.connectionEnds k = some e)
      · unfold rstBranch1
        rw [hrst]
        simpa using h1
      · intro s2 h2
        apply resOf1_andThen1 (P := fun s' => lookupA s'.connectionEnds k = some e)
        · unfold finBranch1
          rw [hfin]
          simp only [if_true]
          apply resOf1_andThen1 (P := fun s' => lookupA s'.connectionEnds k = some e)
          · exact endFinKey_ends_pres p _ k e _ h2
          · intro s3 h3
            exact endFinKey_ends_pres p _ k e _ h3
        · intro s3 h3
          simp only [resOf1_inr]
          rw [ends_httpBranch1]
          exact h3
  · simpa [htcp] using h

theorem counts_ackUpd (p : Packet) (s : St1) (k : CKey) :
    (ackUpd p s k).rstCount = s.rstCount ∧ (ackUpd p s k).finCount = s.finCount := by
  unfold ackUpd
  repeat' split
  all_goals exact ⟨rfl, rfl⟩

theorem counts_reqUpd (hm : HttpInfo) (s : St1) (k : CKey) :
    (reqUpd hm s k).rstCount = s.rstCount ∧ (reqUpd hm s k).finCount = s.finCount := by
  unfold reqUpd
  repeat' split
  all_goals exact ⟨rfl, rfl⟩

theorem counts_respUpd (hm : HttpInfo) (s : St1) (k : CKey) :
    (respUpd hm s k).rstCount = s.rstCount ∧ (respUpd hm s k).finCount = s.finCount := by
  unfold respUpd
  repeat' split
  all_goals exact ⟨rfl, rfl⟩

theorem counts_httpBranch1 (p : Packet) (s : St1) :
    (httpBranch1 p s).rstCount = s.rstCount ∧ (httpBranch1 p s).finCount = s.finCount := by
  unfold httpBranch1 httpReqStage httpRespStage
  split
  · exact ⟨rfl, rfl⟩
  · split <;> split <;>
      simp [(counts_respUpd _ _ _).1, (counts_respUpd _ _ _).2,
        (counts_reqUpd _ _ _).1, (counts_reqUpd _ _ _).2]

theorem estBranch_counts_good (p : Packet) (s : St1) (hb : p.tsBad = false) :
    ∃ s', estBranch p s = Sum.inr s'
      ∧ s'.rstCount = s.rstCount ∧ s'.finCount = s.finCount := by
  unfold estBranch
  split
  · simp only [getTs1_good _ hb]
    exact ⟨_, rfl, rfl, rfl⟩
  · split
    · exact ⟨_, rfl, rfl, rfl⟩
    · split
      · refine ⟨_, rfl, ?_, ?_⟩
        · rw [(counts_ackUpd _ _ _).1, (counts_ackUpd _ _ _).1]
        · rw [(counts_ackUpd _ _ _).2, (counts_ackUpd _ _ _).2]
      · exact ⟨_, rfl, rfl, rfl⟩

theorem endRstKey_counts_good (p : Packet) (k : CKey) (s : St1) (hb : p.tsBad = false) :
    ∃ s', endRstKey p k s = Sum.inr s'
      ∧ s'.rstCount = s.rstCount ∧ s'.finCount = s.finCount := by
  unfold endRstKey
  split
  · exact ⟨_, rfl, rfl, rfl⟩
  · simp only [getTs1_good _ hb]
    exact ⟨_, rfl, rfl, rfl⟩

theorem endFinKey_counts_good (p : Packet) (k : CKey) (s : St1) (hb : p.tsBad = false) :
    ∃ s', endFinKey p k s = Sum.inr s'
      ∧ s'.rstCount = s.rstCount ∧ s'.finCount = s.finCount := by
  unfold endFinKey
  split
  · simp only [getTs1_good _ hb]
    exact ⟨_, rfl, rfl, rfl⟩
  · exact ⟨_, rfl, rfl, rfl⟩

theorem rstBranch1_counts_good (p : Packet) (s : St1) (hb : p.tsBad = false) :
    ∃ s', rstBranch1 p s = Sum.inr s'
      ∧ s'.rstCount = s.rstCount + (if p.flags.rst then 1 else 0)
      ∧ s'.finCount = s.finCount := by
  unfold rstBranch1
  split
  case isTrue hrst =>
    obtain ⟨s1, h1, hr1, hf1⟩ :=
      endRstKey_counts_good p (fwdKey p) { s with rstCount := s.rstCount + 1 } hb
    rw [h1]
    simp only [andThen1]
    obtain ⟨s2, h2, hr2, hf2⟩ := endRstKey_counts_good p (revKey p) s1 hb
    rw [h2]
    exact ⟨s2, rfl, by simp [hr2, hr1, hrst], by simp [hf2, hf1]⟩
  case isFalse hrst =>
    exact ⟨s, rfl, by simp [hrst], rfl⟩

theorem finBranch1_counts_good (p : Packet) (s : St1) (hb : p.tsBad = false) :
    ∃ s', finBranch1 p s = Sum.inr s'
      ∧ s'.rstCount = s.rstCount
      ∧ s'.finCount = s.finCount + (if p.flags.fin then 1 else 0) := by
  unfold finBranch1
  split
  case isTrue hfin =>
    obtain ⟨s1, h1, hr1, hf1⟩ :=
      endFinKey_counts_good p (fwdKey p) { s with finCount := s.finCount + 1 } hb
    rw [h1]
    simp only [andThen1]
    obtain ⟨s2, h2, hr2, hf2⟩ := endFinKey_counts_good p (revKey p) s1 hb
    rw [h2]
    exact ⟨s2, rfl, by simp [hr2, hr1], by simp [hf2, hf1, hfin]⟩
  case isFalse hfin =>
    exact ⟨s, rfl, rfl, by simp [hfin]⟩

theorem w1step_counts (s : St1) (p : Packet) (hb : p.tsBad = false) :
    (w1step s p).rstCount = s.rstCount + (if p.tcp && p.flags.rst then 1 else 0)
    ∧ (w1step s p).finCount = s.finCount + (if p.tcp && p.flags.fin then 1 else 0) := by
  rw [w1step_eq_resOf1]
  unfold w1try
  by_cases htcp : p.tcp
  · simp only [htcp, if_true]
    obtain ⟨s1, h1, hr1, hf1⟩ := estBranch_counts_good p s hb
    rw [h1]
    simp only [andThen1]
    obtain ⟨s2, h2, hr2, hf2⟩ := rstBranch1_counts_good p s1 hb
    rw [h2]
    simp only [andThen1]
    obtain ⟨s3, h3, hr3, hf3⟩ := finBranch1_counts_good p s2 hb
    rw [h3]
    simp only [andThen1, resOf1_inr]
    constructor
    · rw [(counts_httpBranch1 p s3).1, hr3, hr2, hr1]
      simp [htcp]
    · rw [(counts_httpBranch1 p s3).2, hf3, hf2, hf1]
      simp [htcp]
  · simp only [htcp]
    simp

theorem run1_snoc (t : List Packet) (p : Packet) :
    run1 (t ++ [p]) = w1step (run1 t) p := by
  unfold run1
  rw [run1From_append]
  rfl

theorem run3_snoc (t : List Packet) (p : Packet) :
    run3 (t ++ [p]) = w3step (run3 t) p := by
  unfold run3
  rw [run3From_append]
  rfl

theorem run1_counts (tr : List Packet) (hg : goodTrace tr) :
    (run1 tr).rstCount = (tr.filter (fun p => p.tcp && p.flags.rst)).length
    ∧ (run1 tr).finCount = (tr.filter (fun p => p.tcp && p.flags.fin)).length := by
  induction tr using List.reverseRecOn with
  | nil => exact ⟨rfl, rfl⟩
  | append_singleton t p ih =>
    have hg' : goodTrace t := fun q hq => hg q (List.mem_append_left _ hq)
    have hp : p.tsBad = false := hg p (by simp)
    rw [run1_snoc]
    obtain ⟨h1, h2⟩ := w1step_counts (run1 t) p hp
    rw [h1, h2, (ih hg').1, (ih hg').2]
    constructor <;>
      (rw [List.filter_append, List.length_append]
       congr 1
       rw [List.filter_singleton]
       split <;> rename_i hcond <;>
         (cases htc : p.tcp <;> cases hrr : p.flags.rst <;> cases hff : p.flags.fin <;> simp_all))

/-- SYN establishing connection (1,10)→(2,20) at t=0. -/
def c1SynPkt : Packet :=
  { srcIp := 1, srcPort := 10, dstIp := 2, dstPort := 20, ts := 0, len := 60,
    flags := { syn := true } }

/-- FIN on the same flow at t=1. -/
def c1FinPkt : Packet :=
  { srcIp := 1, srcPort := 10, dstIp := 2, dstPort := 20, ts := 1,
    flags := { fin := true } }

/-- RST from the reverse direction at t=2, after the FIN. -/
def c1RstPkt : Packet :=
  { srcIp := 2, srcPort := 20, dstIp := 1, dstPort := 10, ts := 2,
    flags := { rst := true } }

def c1Trace : List Packet := [c1SynPkt, c1FinPkt, c1RstPkt]

/-- A second FIN on the flow at t=3, used to witness FIN-preservation. -/
def c1Fin2Pkt : Packet :=
  { srcIp := 2, srcPort := 20, dstIp := 1, dstPort := 10, ts := 3,
    flags := { fin := true } }

/-- Claim C1 counterexample: when a FIN precedes a RST on the same flow, the
final record shows RST with the RST's time, not FIN with the FIN's time — the
RST branch of wireshark1.py overwrites `connection_ends` unconditionally
(only the FIN branch checks `key not in connection_ends`). -/
theorem c1_first_signal_counterexample :
    lookupA (run1 c1Trace).connectionEnds (1, 10, 2, 20) = some Term.RST
    ∧ lookupA (run1 c1Trace).connectionEnds (1, 10, 2, 20) ≠ some Term.FIN
    ∧ (lookupA (run1 c1Trace).connections (1, 10, 2, 20)).map Conn1.endTime
        = some (some 2) :=
  ⟨by decide, by decide, by decide⟩

/-- Claim C1 amended: once set, `terminatedBy` is protected only against later
FINs — a FIN-only packet never overwrites an existing `connection_ends` entry,
but every RST on a tracked flow overwrites `terminatedBy` and
`terminationTime` (so FIN-then-RST ends as RST with the RST's time); the
global RST and FIN counters still count every TCP terminating packet.  (No
termination source address is recorded by `analyze_fasthttp_connections`;
wireshark3.py keeps `fin_from`/`rst_from` in separate fields, each updated
unconditionally by later packets of the same kind.) -/
theorem c1_first_signal_amended :
    (∀ (s : St1) (p : Packet) (k : CKey) (e : Term),
        p.flags.fin = true → p.flags.rst = false →
        lookupA s.connectionEnds k = some e →
        lookupA (w1step s p).connectionEnds k = some e)
    ∧ (∀ tr : List Packet, goodTrace tr →
        (run1 tr).rstCount = (tr.filter (fun p => p.tcp && p.flags.rst)).length
        ∧ (run1 tr).finCount = (tr.filter (fun p => p.tcp && p.flags.fin)).length)
    ∧ lookupA (run1 c1Trace).connectionEnds (1, 10, 2, 20) = some Term.RST
    ∧ (run1 c1Trace).rstCount = 1
    ∧ (run1 c1Trace).finCount = 1 :=
  ⟨fun s p k e hf hr h => w1step_fin_preserves_end s p k e hf hr h,
   fun tr hg => run1_counts tr hg,
   by decide, by decide, by decide⟩

/-- Witness for the amended C1: a later FIN does not overwrite the FIN already
recorded for the flow, and the counters on the FIN-then-RST trace count one
RST and one FIN. -/
theorem c1_first_signal_amended_witness :
    lookupA (w1step (run1 [c1SynPkt, c1FinPkt]) c1Fin2Pkt).connectionEnds
      (1, 10, 2, 20) = some Term.FIN
    ∧ (run1 c1Trace).rstCount
        = (c1Trace.filter (fun p => p.tcp && p.flags.rst)).length :=
  ⟨c1_first_signal_amended.1 (run1 [c1SynPkt, c1FinPkt]) c1Fin2Pkt
      (1, 10, 2, 20) Term.FIN (by decide) (by decide) (by decide),
   (c1_first_signal_amended.2.1 c1Trace (by decide)).1⟩

/-! ### Claim C7: handshake classification -/

/-- The stream dictionary never holds duplicate keys. -/
def NK (s : St) : Prop :=
  (keysA s.tcpStreams).Nodup

theorem NK_modStream (s : St) (sid : ℕ) (f : SRec → SRec) (h : NK s) :
    NK (modStream s sid f) :=
  nodup_keysA_insertA _ _ _ h

theorem NK_resOf_synBranch (p : Packet) (s : St) (h : NK s) : NK (resOf (synBranch p s)) := by
  unfold synBranch
  split
  · cases hb : p.tsBad
    · simp only [getTs_good _ hb, resOf_inr]
      exact NK_modStream _ _ _ (NK_modStream _ _ _ h)
    · simp only [getTs_bad _ hb, resOf_inl]
      exact NK_modStream _ _ _ h
  · exact h

theorem NK_resOf_rstBranch (p : Packet) (s : St) (h : NK s) : NK (resOf (rstBranch p s)) := by
  unfold rstBranch
  split
  · cases hb : p.tsBad
    · simp only [getTs_good _ hb, resOf_inr]
      have hx := NK_modStream _ p.stream
        (fun r => { r with rstTime := some p.ts, rstFrom := some p.srcIp })
        (NK_modStream { s with totalRst := s.totalRst + 1 } p.stream
          (fun r => { r with hasRst := true }) h)
      split <;> simp only [resOf_inr] <;> exact hx
    · simp only [getTs_bad _ hb, resOf_inl]
      exact NK_modStream _ _ _ h
  · exact h

theorem NK_resOf_finBranch (p : Packet) (s : St) (h : NK s) : NK (resOf (finBranch p s)) := by
  unfold finBranch
  split
  · cases hb : p.tsBad
    · simp only [getTs_good _ hb, resOf_inr]
      exact NK_modStream _ _ _ (NK_modStream _ _ _ h)
    · simp only [getTs_bad _ hb, resOf_inl]
      exact NK_modStream _ _ _ h
  · exact h

theorem NK_resOf_trackBranch (p : Packet) (s : St) (h : NK s) : NK (resOf (trackBranch p s)) := by
  unfold trackBranch
  cases hb : p.tsBad
  · simp only [getTs_good _ hb]
    split
    · simp only [andThen, resOf_inr]
      apply NK_modStream
      exact nodup_keysA_insertA _ _ _ h
    · simp only [andThen, resOf_inr]
      exact NK_modStream _ _ _ (NK_modStream _ _ _ h)
  · simp only [getTs_bad _ hb]
    split <;> simp only [andThen, resOf_inl] <;> exact h

theorem tcpStreams_resOf_httpBranch (p : Packet) (s : St) :
    (resOf (httpBranch p s)).tcpStreams = s.tcpStreams := by
  unfold httpBranch
  split
  · rfl
  · apply resOf_andThen (P := fun x => x.tcpStreams = s.tcpStreams)
    · split
      · cases hb : p.tsBad
        · simp only [getTs_good _ hb, resOf_inr]
          repeat' split
          all_goals rfl
        · simp only [getTs_bad _ hb, resOf_inl]
          repeat' split
          all_goals rfl
      · rfl
    · intro s' h'
      rw [← h']
      split
      · cases hb : p.tsBad
        · simp only [getTs_good _ hb, resOf_inr]
          repeat' split
          all_goals rfl
        · simp only [getTs_bad _ hb, resOf_inl]
          repeat' split
          all_goals rfl
      · rfl

theorem NK_w3step (s : St) (p : Packet) (h : NK s) : NK (w3step s p) := by
  rw [w3step_eq_resOf]
  unfold w3try
  by_cases htcp : p.tcp
  · simp only [htcp, if_true]
    apply resOf_andThen (P := NK)
    · exact NK_resOf_synBranch p _ (by unfold NK; simpa using h)
    · intro s1 h1
      have h1' : NK (ackBranch p (synAckBranch p s1)) := by
        unfold ackBranch synAckBranch
        split <;> split <;>
          first
            | exact NK_modStream _ _ _ (NK_modStream _ _ _ h1)
            | exact NK_modStream _ _ _ h1
            | exact h1
      apply resOf_andThen (P := NK) _ _ (NK_resOf_rstBranch p _ h1')
      intro s2 h2
      apply resOf_andThen (P := NK) _ _ (NK_resOf_finBranch p _ h2)
      intro s3 h3
      apply resOf_andThen (P := NK) _ _ (NK_resOf_trackBranch p _ h3)
      intro s4 h4
      apply resOf_andThen (P := NK)
      · unfold NK
        rw [tcpStreams_resOf_httpBranch]
        exact h4
      · intro s5 h5
        unfold NK
        simpa using h5
  · simpa [htcp] using h

theorem NK_run3 (tr : List Packet) : NK (run3 tr) := by
  have : ∀ (s : St), NK s → NK (run3From s tr) := by
    induction tr with
    | nil => exact fun s h => h
    | cons p t ih => exact fun s h => ih (w3step s p) (NK_w3step s p h)
  exact this initSt (by simp [NK, initSt, keysA])

/-- Reading one boolean field of a stream record, `false` when absent. -/
def fieldL (g : SRec → Bool) (s : St) (sid : ℕ) : Bool :=
  match lookupA s.tcpStreams sid with
  | some r => g r
  | none => false

theorem fieldL_modStream_pres (g : SRec → Bool) (hg0 : g {} = false)
    (s : St) (sid0 : ℕ) (f : SRec → SRec) (hf : ∀ r, g (f r) = g r) (sid : ℕ) :
    fieldL g (modStream s sid0 f) sid = fieldL g s sid := by
  unfold fieldL
  rw [modStream, lookupA_updateA]
  by_cases hsid : sid = sid0
  · subst hsid
    cases hl : lookupA s.tcpStreams sid <;> simp [hl, hf, hg0]
  · simp [hsid]

theorem fieldL_modStream_set (g : SRec → Bool)
    (s : St) (sid0 : ℕ) (f : SRec → SRec) (hf : ∀ r, g (f r) = true) (sid : ℕ) :
    fieldL g (modStream s sid0 f) sid = if sid = sid0 then true else fieldL g s sid := by
  unfold fieldL
  rw [modStream, lookupA_updateA]
  by_cases hsid : sid = sid0
  · subst hsid
    simp [hf]
  · simp [hsid]

theorem fieldL_trackBranch_pres (g : SRec → Bool) (hg0 : g {} = false)
    (hfr : ∀ (p : Packet) (t : ℚ), g (freshRec p t) = false)
    (hf1 : ∀ (r : SRec) (t : ℚ),
      g { r with lastPacketTime := some t, packetTimestamps := r.packetTimestamps ++ [t] } = g r)
    (hf2 : ∀ r : SRec, g { r with packets := r.packets + 1 } = g r)
    (p : Packet) (s : St) (sid : ℕ) :
    fieldL g (resOf (trackBranch p s)) sid = fieldL g s sid := by
  unfold trackBranch
  cases hb : p.tsBad
  · simp only [getTs_good _ hb]
    split
    case isTrue hnone =>
      simp only [andThen, resOf_inr]
      rw [fieldL_modStream_pres g hg0 _ _ _ hf2]
      unfold fieldL
      simp only
      rw [lookupA_insertA]
      rw [Option.isNone_iff_eq_none] at hnone
      by_cases hsid : sid = p.stream
      · subst hsid
        simp [hnone, hfr]
      · simp [hsid]
    case isFalse hsome =>
      simp only [andThen, resOf_inr]
      rw [fieldL_modStream_pres g hg0 _ _ _ hf2,
        fieldL_modStream_pres g hg0 _ _ _ (fun r => hf1 r p.ts)]
  · simp only [getTs_bad _ hb]
    split <;> simp only [andThen, resOf_inl]

theorem fieldL_httpBranch_pres (g : SRec → Bool) (p : Packet) (s : St) (sid : ℕ) :
    fieldL g (resOf (httpBranch p s)) sid = fieldL g s sid := by
  unfold fieldL
  rw [tcpStreams_resOf_httpBranch]

theorem fieldL_portTrack (g : SRec → Bool) (p : Packet) (s : St) (sid : ℕ) :
    fieldL g (portTrack s p) sid = fieldL g s sid := by
  unfold fieldL
  rw [portTrack_tcpStreams]

theorem fieldL_synBranch_pres (g : SRec → Bool) (hg0 : g {} = false)
    (hfa : ∀ r, g { r with hasSyn := true } = g r)
    (hfb : ∀ (r : SRec) (t : ℚ), g { r with synTime := some t } = g r)
    (p : Packet) (s : St) (sid : ℕ) :
    fieldL g (resOf (synBranch p s)) sid = fieldL g s sid := by
  unfold synBranch
  split
  · cases hb : p.tsBad
    · simp only [getTs_good _ hb, resOf_inr]
      rw [fieldL_modStream_pres g hg0 _ _ _ (fun r => hfb r p.ts),
        fieldL_modStream_pres g hg0 _ _ _ hfa]
    · simp only [getTs_bad _ hb, resOf_inl]
      rw [fieldL_modStream_pres g hg0 _ _ _ hfa]
  · rfl

theorem fieldL_synAckBranch_pres (g : SRec → Bool) (hg0 : g {} = false)
    (hf : ∀ r, g { r with hasSynAck := true } = g r)
    (p : Packet) (s : St) (sid : ℕ) :
    fieldL g (synAckBranch p s) sid = fieldL g s sid := by
  unfold synAckBranch
  split
  · rw [fieldL_modStream_pres g hg0 _ _ _ hf]
  · rfl

theorem fieldL_ackBranch_pres (g : SRec → Bool) (hg0 : g {} = false)
    (hf : ∀ r, g { r with hasAck := true } = g r)
    (p : Packet) (s : St) (sid : ℕ) :
    fieldL g (ackBranch p s) sid = fieldL g s sid := by
  unfold ackBranch
  split
  · rw [fieldL_modStream_pres g hg0 _ _ _ hf]
  · rfl

theorem fieldL_rstBranch_pres (g : SRec → Bool) (hg0 : g {} = false)
    (hfa : ∀ r, g { r with hasRst := true } = g r)
    (hfb : ∀ (r : SRec) (t : ℚ) (a : ℕ), g { r with rstTime := some t, rstFrom := some a } = g r)
    (p : Packet) (s : St) (sid : ℕ) :
    fieldL g (resOf (rstBranch p s)) sid = fieldL g s sid := by
  unfold rstBranch
  split
  · cases hb : p.tsBad
    · simp only [getTs_good _ hb, resOf_inr]
      have hx : fieldL g (modStream (modStream { s with totalRst := s.totalRst + 1 }
          p.stream (fun r => { r with hasRst := true })) p.stream
          (fun r => { r with rstTime := some p.ts, rstFrom := some p.srcIp })) sid
          = fieldL g s sid := by
        rw [fieldL_modStream_pres g hg0 _ _ _ (fun r => hfb r p.ts p.srcIp),
          fieldL_modStream_pres g hg0 _ _ _ hfa]
        rfl
      split <;> simp only [resOf_inr] <;> exact hx
    · simp only [getTs_bad _ hb, resOf_inl]
      rw [fieldL_modStream_pres g hg0 _ _ _ hfa]
      rfl
  · rfl

theorem fieldL_finBranch_pres (g : SRec → Bool) (hg0 : g {} = false)
    (hfa : ∀ r, g { r with hasFin := true } = g r)
    (hfb : ∀ (r : SRec) (t : ℚ) (a : ℕ), g { r with finTime := some t, finFrom := some a } = g r)
    (p : Packet) (s : St) (sid : ℕ) :
    fieldL g (resOf (finBranch p s)) sid = fieldL g s sid := by
  unfold finBranch
  split
  · cases hb : p.tsBad
    · simp only [getTs_good _ hb, resOf_inr]
      rw [fieldL_modStream_pres g hg0 _ _ _ (fun r => hfb r p.ts p.srcIp),
        fieldL_modStream_pres g hg0 _ _ _ hfa]
      rfl
    · simp only [getTs_bad _ hb, resOf_inl]
      rw [fieldL_modStream_pres g hg0 _ _ _ hfa]
      rfl
  · rfl

/-- A SYN-without-ACK packet of the flow was observed in the trace. -/
def sawSynIn (tr : List Packet) (sid : ℕ) : Bool :=
  tr.any (fun p => p.tcp && (p.stream == sid) && (p.flags.syn && !p.flags.ack))

/-- A SYN+ACK packet of the flow was observed in the trace. -/
def sawSynAckIn (tr : List Packet) (sid : ℕ) : Bool :=
  tr.any (fun p => p.tcp && (p.stream == sid) && (p.flags.syn && p.flags.ack))

/-- An ACK-without-SYN packet of the flow was observed in the trace. -/
def sawAckIn (tr : List Packet) (sid : ℕ) : Bool :=
  tr.any (fun p => p.tcp && (p.stream == sid) && (p.flags.ack && !p.flags.syn))

theorem hasSyn_w3step (s : St) (p : Packet) (sid : ℕ) :
    fieldL SRec.hasSyn (w3step s p) sid
      = (fieldL SRec.hasSyn s sid
         || (p.tcp && (p.stream == sid) && (p.flags.syn && !p.flags.ack))) := by
  rw [w3step_eq_resOf]
  unfold w3try
  by_cases htcp : p.tcp
  case neg =>
    have ht : p.tcp = false := by simpa using htcp
    simp [ht]
  case pos =>
    simp only [htcp, if_true, Bool.true_and]
    apply resOf_andThen (P := fun x => fieldL SRec.hasSyn x sid
      = (fieldL SRec.hasSyn s sid || ((p.stream == sid) && (p.flags.syn && !p.flags.ack))))
    · unfold synBranch
      split
      case isTrue hcond =>
        have hres : ∀ s0 : St, fieldL SRec.hasSyn (modStream s0 p.stream
            (fun r => { r with hasSyn := true })) sid
            = if sid = p.stream then true else fieldL SRec.hasSyn s0 sid :=
          fun s0 => fieldL_modStream_set _ _ _ _ (by simp) sid
        cases hb : p.tsBad
        · simp only [getTs_good _ hb, resOf_inr]
          rw [fieldL_modStream_pres SRec.hasSyn rfl _ _ _ (by simp), hres,
            fieldL_portTrack]
          by_cases hsid : sid = p.stream
          · simp [hsid, hcond]
          · simp [hsid, Ne.symm hsid]
        · simp only [getTs_bad _ hb, resOf_inl]
          rw [hres, fieldL_portTrack]
          by_cases hsid : sid = p.stream
          · simp [hsid, hcond]
          · simp [hsid, Ne.symm hsid]
      case isFalse hcond =>
        simp only [resOf_inr]
        rw [fieldL_portTrack]
        have : ((p.flags.syn && !p.flags.ack)) = false := by
          simpa using hcond
        simp [this]
    · intro s1 h1
      have h1' : fieldL SRec.hasSyn (ackBranch p (synAckBranch p s1)) sid
          = fieldL SRec.hasSyn s1 sid := by
        rw [fieldL_ackBranch_pres _ rfl (by simp), fieldL_synAckBranch_pres _ rfl (by simp)]
      apply resOf_andThen (P := fun x => fieldL SRec.hasSyn x sid
        = (fieldL SRec.hasSyn s sid || ((p.stream == sid) && (p.flags.syn && !p.flags.ack))))
      · rw [fieldL_rstBranch_pres _ rfl (by simp) (by simp), h1']
        exact h1
      · intro s2 h2
        apply resOf_andThen (P := fun x => fieldL SRec.hasSyn x sid
          = (fieldL SRec.hasSyn s sid || ((p.stream == sid) && (p.flags.syn && !p.flags.ack))))
        · rw [fieldL_finBranch_pres _ rfl (by simp) (by simp)]
          exact h2
        · intro s3 h3
          apply resOf_andThen (P := fun x => fieldL SRec.hasSyn x sid
            = (fieldL SRec.hasSyn s sid || ((p.stream == sid) && (p.flags.syn && !p.flags.ack))))
          · rw [fieldL_trackBranch_pres _ rfl (by simp [freshRec]) (by simp) (by simp)]
            exact h3
          · intro s4 h4
            apply resOf_andThen (P := fun x => fieldL SRec.hasSyn x sid
              = (fieldL SRec.hasSyn s sid || ((p.stream == sid) && (p.flags.syn && !p.flags.ack))))
            · rw [fieldL_httpBranch_pres]
              exact h4
            · intro s5 h5
              simp only [resOf_inr]
              rw [← h5]
              unfold fieldL
              rw [markerBlock_tcpStreams]

theorem fieldL_tail_pres (g : SRec → Bool) (hg0 : g {} = false)
    (hrsta : ∀ r, g { r with hasRst := true } = g r)
    (hrstb : ∀ (r : SRec) (t : ℚ) (a : ℕ), g { r with rstTime := some t, rstFrom := some a } = g r)
    (hfina : ∀ r, g { r with hasFin := true } = g r)
    (hfinb : ∀ (r : SRec) (t : ℚ) (a : ℕ), g { r with finTime := some t, finFrom := some a } = g r)
    (hfr : ∀ (p : Packet) (t : ℚ), g (freshRec p t) = false)
    (hl : ∀ (r : SRec) (t : ℚ),
      g { r with lastPacketTime := some t, packetTimestamps := r.packetTimestamps ++ [t] } = g r)
    (hpk : ∀ r : SRec, g { r with packets := r.packets + 1 } = g r)
    (p : Packet) (s2 : St) (sid : ℕ) (target : Bool) (h2 : fieldL g s2 sid = target) :
    fieldL g (resOf (andThen (rstBranch p s2) (fun s =>
      andThen (finBranch p s) (fun s =>
        andThen (trackBranch p s) (fun s =>
          andThen (httpBranch p s) (fun s => Sum.inr (markerBlock p s))))))) sid = target := by
  apply resOf_andThen (P := fun x => fieldL g x sid = target)
  · rw [fieldL_rstBranch_pres _ hg0 hrsta hrstb]
    exact h2
  · intro s3 h3
    apply resOf_andThen (P := fun x => fieldL g x sid = target)
    · rw [fieldL_finBranch_pres _ hg0 hfina hfinb]
      exact h3
    · intro s4 h4
      apply resOf_andThen (P := fun x => fieldL g x sid = target)
      · rw [fieldL_trackBranch_pres _ hg0 hfr hl hpk]
        exact h4
      · intro s5 h5
        apply resOf_andThen (P := fun x => fieldL g x sid = target)
        · rw [fieldL_httpBranch_pres]
          exact h5
        · intro s6 h6
          simp only [resOf_inr]
          rw [← h6]
          unfold fieldL
          rw [markerBlock_tcpStreams]

theorem resOf_andThen_cases (Q : St → Prop) (r : St ⊕ St) (f : St → St ⊕ St)
    (h1 : ∀ s', r = Sum.inl s' → Q s')
    (h2 : ∀ s', r = Sum.inr s' → Q (resOf (f s'))) : Q (resOf (andThen r f)) := by
  cases hr : r with
  | inl s' => exact h1 s' hr
  | inr s' => exact h2 s' hr

theorem synBranch_inl_eq (p : Packet) (x s' : St) (h : synBranch p x = Sum.inl s') :
    (p.flags.syn && !p.flags.ack) = true
    ∧ s' = modStream x p.stream (fun r => { r with hasSyn := true }) := by
  unfold synBranch at h
  split at h
  case isTrue hcond =>
    cases hb : p.tsBad
    · simp [getTs, hb] at h
    · simp [getTs, hb] at h
      exact ⟨hcond, h.symm⟩
  case isFalse => simp at h

theorem hasSynAck_w3step (s : St) (p : Packet) (sid : ℕ) :
    fieldL SRec.hasSynAck (w3step s p) sid
      = (fieldL SRec.hasSynAck s sid
         || (p.tcp && (p.stream == sid) && (p.flags.syn && p.flags.ack))) := by
  rw [w3step_eq_resOf]
  unfold w3try
  by_cases htcp : p.tcp
  case neg =>
    have ht : p.tcp = false := by simpa using htcp
    simp [ht]
  case pos =>
    simp only [htcp, if_true, Bool.true_and]
    apply resOf_andThen_cases (Q := fun x => fieldL SRec.hasSynAck x sid
      = (fieldL SRec.hasSynAck s sid || ((p.stream == sid) && (p.flags.syn && p.flags.ack))))
    · intro s' hs'
      obtain ⟨hcond, rfl⟩ := synBranch_inl_eq p _ s' hs'
      rw [fieldL_modStream_pres _ rfl _ _ _ (by simp), fieldL_portTrack]
      have hack : p.flags.ack = false := by
        rcases (Bool.and_eq_true _ _).mp hcond with ⟨_, h2⟩
        simpa using h2
      simp [hack]
    · intro s' hs'
      have h1 : fieldL SRec.hasSynAck s' sid = fieldL SRec.hasSynAck s sid := by
        have hres : resOf (synBranch p (portTrack s p)) = s' := by rw [hs']; rfl
        rw [← hres, fieldL_synBranch_pres _ rfl (by simp) (by simp), fieldL_portTrack]
      have h1' : fieldL SRec.hasSynAck (ackBranch p (synAckBranch p s')) sid
          = (fieldL SRec.hasSynAck s sid
             || ((p.stream == sid) && (p.flags.syn && p.flags.ack))) := by
        rw [fieldL_ackBranch_pres _ rfl (by simp)]
        unfold synAckBranch
        split
        case isTrue hcond =>
          rw [fieldL_modStream_set _ _ _ _ (by simp), h1]
          by_cases hsid : sid = p.stream
          · simp [hsid, hcond]
          · simp [hsid, Ne.symm hsid]
        case isFalse hcond =>
          rw [h1]
          have hc : (p.flags.syn && p.flags.ack) = false := by simpa using hcond
          simp [hc]
      exact fieldL_tail_pres _ rfl (by simp) (by simp) (by simp) (by simp)
        (by simp [freshRec]) (by simp) (by simp) p _ sid _ h1'

theorem hasAck_w3step (s : St) (p : Packet) (sid : ℕ) :
    fieldL SRec.hasAck (w3step s p) sid
      = (fieldL SRec.hasAck s sid
         || (p.tcp && (p.stream == sid) && (p.flags.ack && !p.flags.syn))) := by
  rw [w3step_eq_resOf]
  unfold w3try
  by_cases htcp : p.tcp
  case neg =>
    have ht : p.tcp = false := by simpa using htcp
    simp [ht]
  case pos =>
    simp only [htcp, if_true, Bool.true_and]
    apply resOf_andThen_cases (Q := fun x => fieldL SRec.hasAck x sid
      = (fieldL SRec.hasAck s sid || ((p.stream == sid) && (p.flags.ack && !p.flags.syn))))
    · intro s' hs'
      obtain ⟨hcond, rfl⟩ := synBranch_inl_eq p _ s' hs'
      rw [fieldL_modStream_pres _ rfl _ _ _ (by simp), fieldL_portTrack]
      have hsyn : p.flags.syn = true := by
        rcases (Bool.and_eq_true _ _).mp hcond with ⟨h1, _⟩
        exact h1
      simp [hsyn]
    · intro s' hs'
      have h1 : fieldL SRec.hasAck s' sid = fieldL SRec.hasAck s sid := by
        have hres : resOf (synBranch p (portTrack s p)) = s' := by rw [hs']; rfl
        rw [← hres, fieldL_synBranch_pres _ rfl (by simp) (by simp), fieldL_portTrack]
      have h1' : fieldL SRec.hasAck (ackBranch p (synAckBranch p s')) sid
          = (fieldL SRec.hasAck s sid
             || ((p.stream == sid) && (p.flags.ack && !p.flags.syn))) := by
        have hsa : fieldL SRec.hasAck (synAckBranch p s') sid
            = fieldL SRec.hasAck s sid := by
          rw [fieldL_synAckBranch_pres _ rfl (by simp)]
          exact h1
        unfold ackBranch
        split
        case isTrue hcond =>
          rw [fieldL_modStream_set _ _ _ _ (by simp), hsa]
          by_cases hsid : sid = p.stream
          · simp [hsid, hcond]
          · simp [hsid, Ne.symm hsid]
        case isFalse hcond =>
          rw [hsa]
          have hc : (p.flags.ack && !p.flags.syn) = false := by simpa using hcond
          simp [hc]
      exact fieldL_tail_pres _ rfl (by simp) (by simp) (by simp) (by simp)
        (by simp [freshRec]) (by simp) (by simp) p _ sid _ h1'

theorem hasSyn_run3 (tr : List Packet) (sid : ℕ) :
    fieldL SRec.hasSyn (run3 tr) sid = sawSynIn tr sid := by
  induction tr using List.reverseRecOn with
  | nil => rfl
  | append_singleton t p ih =>
    rw [run3_snoc, hasSyn_w3step, ih]
    unfold sawSynIn
    rw [List.any_append]
    simp

theorem hasSynAck_run3 (tr : List Packet) (sid : ℕ) :
    fieldL SRec.hasSynAck (run3 tr) sid = sawSynAckIn tr sid := by
  induction tr using List.reverseRecOn with
  | nil => rfl
  | append_singleton t p ih =>
    rw [run3_snoc, hasSynAck_w3step, ih]
    unfold sawSynAckIn
    rw [List.any_append]
    simp

theorem hasAck_run3 (tr : List Packet) (sid : ℕ) :
    fieldL SRec.hasAck (run3 tr) sid = sawAckIn tr sid := by
  induction tr using List.reverseRecOn with
  | nil => rfl
  | append_singleton t p ih =>
    rw [run3_snoc, hasAck_w3step, ih]
    unfold sawAckIn
    rw [List.any_append]
    simp

theorem mem_filtered_ids (s : St) (hnk : NK s) (pred : SRec → Bool) (sid : ℕ) (r : SRec)
    (hr : lookupA s.tcpStreams sid = some r) :
    sid ∈ (s.tcpStreams.filter (fun kr => pred kr.2)).map Prod.fst ↔ pred r = true := by
  constructor
  · intro h
    obtain ⟨⟨k, r'⟩, hin, hk⟩ := List.mem_map.mp h
    obtain ⟨hin2, hpred⟩ := List.mem_filter.mp hin
    simp only at hk
    subst hk
    have hlk := lookupA_eq_some_of_mem hnk hin2
    rw [hr] at hlk
    obtain rfl := Option.some.injEq .. ▸ hlk.symm
    exact hpred
  · intro h
    refine List.mem_map.mpr ⟨(sid, r), List.mem_filter.mpr ⟨mem_of_lookupA_eq_some hr, h⟩, rfl⟩

/-- The three-way-handshake witness trace: SYN, SYN+ACK, plain ACK on stream 1
and a lone SYN on stream 2. -/
def c7Trace : List Packet :=
  [{ stream := 1, ts := 0, flags := { syn := true } },
   { stream := 1, ts := 1, flags := { syn := true, ack := true } },
   { stream := 1, ts := 2, flags := { ack := true } },
   { stream := 2, ts := 3, flags := { syn := true } }]

/-- The record the tracker builds for stream 1 of `c7Trace`. -/
def c7Rec : SRec :=
  { hasSyn := true, synTime := some 0, hasSynAck := true, hasAck := true,
    packets := 3, lastPacketTime := some 2, packetTimestamps := [0, 1, 2] }

/-- Claim C7: at end-of-input every tracked stream is classified as exactly one
of complete or partial handshake; it lands in the complete list exactly when
the trace contains, for that flow, a SYN without ACK, a SYN+ACK, and a
non-SYN ACK, and in the partial list exactly when one of the three is
missing. -/
theorem c7_handshake_classification :
    ∀ (tr : List Packet) (sid : ℕ) (r : SRec),
      lookupA (run3 tr).tcpStreams sid = some r →
        (sid ∈ handshakeComplete (run3 tr)
          ↔ (sawSynIn tr sid && sawSynAckIn tr sid && sawAckIn tr sid) = true)
        ∧ (sid ∈ handshakeIncomplete (run3 tr)
          ↔ ¬(sawSynIn tr sid && sawSynAckIn tr sid && sawAckIn tr sid) = true)
        ∧ ¬(sid ∈ handshakeComplete (run3 tr) ∧ sid ∈ handshakeIncomplete (run3 tr)) := by
  intro tr sid r hr
  have hsaw : isComplete r = (sawSynIn tr sid && sawSynAckIn tr sid && sawAckIn tr sid) := by
    have h1 := hasSyn_run3 tr sid
    have h2 := hasSynAck_run3 tr sid
    have h3 := hasAck_run3 tr sid
    unfold fieldL at h1 h2 h3
    rw [hr] at h1 h2 h3
    have h1' : r.hasSyn = sawSynIn tr sid := h1
    have h2' : r.hasSynAck = sawSynAckIn tr sid := h2
    have h3' : r.hasAck = sawAckIn tr sid := h3
    unfold isComplete
    rw [h1', h2', h3']
  have hc := mem_filtered_ids (run3 tr) (NK_run3 tr) isComplete sid r hr
  have hp := mem_filtered_ids (run3 tr) (NK_run3 tr) (fun r => !isComplete r) sid r hr
  refine ⟨?_, ?_, ?_⟩
  · rw [show handshakeComplete (run3 tr)
        = ((run3 tr).tcpStreams.filter (fun kr => isComplete kr.2)).map Prod.fst from rfl]
    rw [hc, hsaw]
  · rw [show handshakeIncomplete (run3 tr)
        = ((run3 tr).tcpStreams.filter (fun kr => !isComplete kr.2)).map Prod.fst from rfl]
    rw [hp]
    have hb : (!isComplete r) = true ↔ isComplete r = false := by simp
    rw [hb, hsaw]
    cases hA : sawSynIn tr sid <;> cases hB : sawSynAckIn tr sid <;>
      cases hC : sawAckIn tr sid <;> simp
  · intro ⟨h1, h2⟩
    rw [show handshakeComplete (run3 tr)
        = ((run3 tr).tcpStreams.filter (fun kr => isComplete kr.2)).map Prod.fst from rfl] at h1
    rw [show handshakeIncomplete (run3 tr)
        = ((run3 tr).tcpStreams.filter (fun kr => !isComplete kr.2)).map Prod.fst from rfl] at h2
    rw [hc] at h1
    rw [hp] at h2
    simp [h1] at h2

/-- Witness for C7 at the handshake trace. -/
theorem c7_handshake_classification_witness :
    (1 ∈ handshakeComplete (run3 c7Trace)
      ↔ (sawSynIn c7Trace 1 && sawSynAckIn c7Trace 1 && sawAckIn c7Trace 1) = true)
    ∧ (1 ∈ handshakeIncomplete (run3 c7Trace)
      ↔ ¬(sawSynIn c7Trace 1 && sawSynAckIn c7Trace 1 && sawAckIn c7Trace 1) = true)
    ∧ ¬(1 ∈ handshakeComplete (run3 c7Trace) ∧ 1 ∈ handshakeIncomplete (run3 c7Trace)) :=
  c7_handshake_classification c7Trace 1 c7Rec (by decide)

/-! ### Claim C3: silent-termination flagging -/

/-- Every entry of `http_requests_by_stream` is a nonempty list (true for
well-formed traces: the entry is created empty and appended to in the same
packet's handling). -/
def ReqNE (s : St) : Prop :=
  ∀ sid l, lookupA s.httpRequests sid = some l → l ≠ []

theorem reqs_resOf_synBranch (p : Packet) (s : St) :
    (resOf (synBranch p s)).httpRequests = s.httpRequests := by
  unfold synBranch
  split
  · cases hb : p.tsBad
    · simp only [getTs_good _ hb, resOf_inr, modStream_httpRequests]
    · simp only [getTs_bad _ hb, resOf_inl, modStream_httpRequests]
  · rfl

theorem reqs_resOf_rstBranch (p : Packet) (s : St) :
    (resOf (rstBranch p s)).httpRequests = s.httpRequests := by
  unfold rstBranch
  split
  · cases hb : p.tsBad
    · simp only [getTs_good _ hb, resOf_inr]
      split <;> simp
    · simp only [getTs_bad _ hb, resOf_inl]
      simp
  · rfl

theorem reqs_resOf_finBranch (p : Packet) (s : St) :
    (resOf (finBranch p s)).httpRequests = s.httpRequests := by
  unfold finBranch
  split
  · cases hb : p.tsBad
    · simp only [getTs_good _ hb, resOf_inr]
      simp
    · simp only [getTs_bad _ hb, resOf_inl]
      simp
  · rfl

theorem reqs_resOf_trackBranch (p : Packet) (s : St) :
    (resOf (trackBranch p s)).httpRequests = s.httpRequests := by
  unfold trackBranch
  cases hb : p.tsBad
  · simp only [getTs_good _ hb]
    split <;> simp [andThen]
  · simp only [getTs_bad _ hb]
    split <;> simp [andThen]

theorem ReqNE_httpBranch_good (p : Packet) (s : St) (hb : p.tsBad = false) (hs : ReqNE s) :
    ReqNE (resOf (httpBranch p s)) := by
  unfold httpBranch
  split
  · exact hs
  · apply resOf_andThen (P := ReqNE)
    · split
      · simp only [getTs_good _ hb, resOf_inr]
        intro sid l hl
        simp only [lookupA_updateA] at hl
        by_cases hsid : sid = p.stream
        · rw [if_pos hsid] at hl
          obtain rfl := Option.some.injEq .. ▸ hl.symm
          simp
        · rw [if_neg hsid] at hl
          split at hl
          · split at hl
            · split at hl
              · rw [show (insertA s.httpRequests p.stream []) = insertA s.httpRequests p.stream []
                    from rfl, lookupA_insertA, if_neg hsid] at hl
                exact hs sid l hl
              · exact hs sid l hl
            · split at hl
              · rw [lookupA_insertA, if_neg hsid] at hl
                exact hs sid l hl
              · exact hs sid l hl
          · split at hl
            · rw [lookupA_insertA, if_neg hsid] at hl
              exact hs sid l hl
            · exact hs sid l hl
      · exact hs
    · intro s' hs'
      split
      · simp only [getTs_good _ hb, resOf_inr]
        repeat' split
        all_goals (intro sid l hl; exact hs' sid l hl)
      · exact hs'

theorem ReqNE_w3step (s : St) (p : Packet) (hb : p.tsBad = false) (hs : ReqNE s) :
    ReqNE (w3step s p) := by
  rw [w3step_eq_resOf]
  unfold w3try
  by_cases htcp : p.tcp
  · simp only [htcp, if_true]
    apply resOf_andThen (P := ReqNE)
    · intro sid l hl
      rw [reqs_resOf_synBranch, portTrack_httpRequests] at hl
      exact hs sid l hl
    · intro s1 h1
      have h1' : ReqNE (ackBranch p (synAckBranch p s1)) := by
        intro sid l hl
        rw [show (ackBranch p (synAckBranch p s1)).httpRequests = s1.httpRequests from by
          unfold ackBranch synAckBranch
          split <;> split <;> simp] at hl
        exact h1 sid l hl
      apply resOf_andThen (P := ReqNE)
      · intro sid l hl
        rw [reqs_resOf_rstBranch] at hl
        exact h1' sid l hl
      · intro s2 h2
        apply resOf_andThen (P := ReqNE)
        · intro sid l hl
          rw [reqs_resOf_finBranch] at hl
          exact h2 sid l hl
        · intro s3 h3
          apply resOf_andThen (P := ReqNE)
          · intro sid l hl
            rw [reqs_resOf_trackBranch] at hl
            exact h3 sid l hl
          · intro s4 h4
            apply resOf_andThen (P := ReqNE)
            · exact ReqNE_httpBranch_good p s4 hb h4
            · intro s5 h5
              intro sid l hl
              rw [resOf_inr, markerBlock_httpRequests] at hl
              exact h5 sid l hl
  · simpa [htcp] using hs

theorem ReqNE_run3 (tr : List Packet) (hg : goodTrace tr) : ReqNE (run3 tr) := by
  induction tr using List.reverseRecOn with
  | nil =>
    intro sid l hl
    simp [run3, run3From, initSt, lookupA] at hl
  | append_singleton t p ih =>
    have hg' : goodTrace t := fun q hq => hg q (List.mem_append_left _ hq)
    have hp : p.tsBad = false := hg p (by simp)
    rw [run3_snoc]
    exact ReqNE_w3step (run3 t) p hp (ih hg')

theorem insertQ_length (x : ℚ) (l : List ℚ) : (insertQ x l).length = l.length + 1 := by
  induction l with
  | nil => rfl
  | cons y t ih =>
    unfold insertQ
    split
    · simp
    · simp [ih]

theorem sortQ_length (l : List ℚ) : (sortQ l).length = l.length := by
  induction l with
  | nil => rfl
  | cons x t ih =>
    unfold sortQ
    rw [insertQ_length, ih]
    rfl

theorem gaps_length : ∀ l : List ℚ, (gaps l).length = l.length - 1
  | [] => rfl
  | [_] => rfl
  | x :: y :: t => by
    show (gaps (x :: y :: t)).length = (x :: y :: t).length - 1
    unfold gaps
    rw [List.length_cons, gaps_length (y :: t)]
    simp

theorem silentCheck_isSome_iff (s : St) (sid : ℕ) (r : SRec) :
    (silentCheck s sid r).isSome = true ↔
      (1 < r.packetTimestamps.length
       ∧ pyMax (gaps (sortQ r.packetTimestamps))
           > (gaps (sortQ r.packetTimestamps)).sum
               / ((gaps (sortQ r.packetTimestamps)).length : ℚ) * 5
       ∧ pyMax (gaps (sortQ r.packetTimestamps)) > 1
       ∧ memA s.httpRequests sid = true) := by
  unfold silentCheck
  simp only []
  by_cases hlen : 1 < r.packetTimestamps.length
  · have hds : 0 < (gaps (sortQ r.packetTimestamps)).length := by
      rw [gaps_length, sortQ_length]
      omega
    rw [if_pos hlen, if_pos hds]
    by_cases hcond : pyMax (gaps (sortQ r.packetTimestamps))
          > (gaps (sortQ r.packetTimestamps)).sum
              / ((gaps (sortQ r.packetTimestamps)).length : ℚ) * 5
        ∧ pyMax (gaps (sortQ r.packetTimestamps)) > 1
    · rw [if_pos hcond]
      by_cases hmem : memA s.httpRequests sid = true
      · simp [hlen, hcond.1, hcond.2, hmem]
      · simp [hmem]
    · rw [if_neg hcond]
      simp only [Option.isSome_none, Bool.false_eq_true, false_iff, not_and]
      intro _ hgt hfloor _
      exact hcond ⟨hgt, hfloor⟩
  · rw [if_neg hlen]
    simp [hlen]

theorem silentCheck_stream (s : St) (k : ℕ) (r : SRec) (rec : SilentRec)
    (h : silentCheck s k r = some rec) : rec.stream = k := by
  unfold silentCheck at h
  simp only [] at h
  split at h
  · split at h
    · split at h
      · split at h
        · obtain rfl := Option.some_inj.mp h
          rfl
        · simp at h
      · simp at h
    · simp at h
  · simp at h

theorem mem_silentIds_iff (s : St) (hnk : NK s) (sid : ℕ) :
    sid ∈ silentIds s ↔
      ∃ r, lookupA s.tcpStreams sid = some r ∧ (silentCheck s sid r).isSome = true := by
  unfold silentIds silentStreams
  constructor
  · intro h
    obtain ⟨rec, hrec, hstream⟩ := List.mem_map.mp h
    obtain ⟨⟨k, r⟩, hkr, hchk⟩ := List.mem_filterMap.mp hrec
    have hk : rec.stream = k := silentCheck_stream s k r rec hchk
    have : k = sid := by rw [← hk, hstream]
    subst this
    exact ⟨r, lookupA_eq_some_of_mem hnk hkr, by simp [hchk]⟩
  · rintro ⟨r, hr, hsome⟩
    obtain ⟨rec, hrec⟩ := Option.isSome_iff_exists.mp hsome
    refine List.mem_map.mpr ⟨rec, List.mem_filterMap.mpr
      ⟨(sid, r), mem_of_lookupA_eq_some hr, hrec⟩, silentCheck_stream s sid r rec hrec⟩

theorem memA_reqs_iff (s : St) (hne : ReqNE s) (sid : ℕ) :
    memA s.httpRequests sid = true ↔
      ∃ l, lookupA s.httpRequests sid = some l ∧ l ≠ [] := by
  unfold memA
  rw [Option.isSome_iff_exists]
  constructor
  · rintro ⟨l, hl⟩
    exact ⟨l, hl, hne sid l hl⟩
  · rintro ⟨l, hl, _⟩
    exact ⟨l, hl⟩

def c3ReqPkt : Packet :=
  { stream := 1, srcIp := 1, dstIp := 2, srcPort := 5000, dstPort := 80,
    ts := 0, http := some { isReq := true, method := 1, uri := 1 } }

def c3Plain (t : ℚ) : Packet :=
  { stream := 1, srcIp := 1, dstIp := 2, srcPort := 5000, dstPort := 80, ts := t }

def c3RstPkt : Packet :=
  { stream := 1, srcIp := 2, dstIp := 1, srcPort := 80, dstPort := 5000,
    ts := 14, flags := { rst := true } }

/-- Seven packets at t = 0 (the first carrying an HTTP request) followed by a
RST at t = 14 on the same stream: a long idle gap on a stream that did NOT end
silently. -/
def c3CtrTrace : List Packet :=
  [c3ReqPkt, c3Plain 0, c3Plain 0, c3Plain 0, c3Plain 0, c3Plain 0, c3Plain 0,
   c3RstPkt]

/-- The record the tracker builds for stream 1 of `c3CtrTrace`. -/
def c3CtrRec : SRec :=
  { hasRst := true, rstTime := some 14, rstFrom := some 2, packets := 8,
    firstPacketTime := some 0, lastPacketTime := some 14,
    clientIp := some 1, serverIp := some 2, clientPort := some 5000,
    serverPort := some 80, packetTimestamps := [0, 0, 0, 0, 0, 0, 0, 14] }

/-- The same capture with the RST replaced by a plain data packet at t = 14. -/
def c3WTrace : List Packet :=
  [c3ReqPkt, c3Plain 0, c3Plain 0, c3Plain 0, c3Plain 0, c3Plain 0, c3Plain 0,
   c3Plain 14]

set_option maxRecDepth 100000 in
/-- Claim C3, counterexample to the `terminatedBy = None` conjunct: on
`c3CtrTrace` stream 1 is flagged as silently terminated even though a RST was
observed on it (the silent-termination check at lines 205-225 never consults
FIN/RST state). -/
theorem c3_silent_flag_counterexample :
    1 ∈ silentIds (run3 c3CtrTrace)
      ∧ (lookupA (run3 c3CtrTrace).tcpStreams 1).map SRec.hasRst = some true := by
  constructor
  · rw [mem_silentIds_iff _ (NK_run3 c3CtrTrace)]
    refine ⟨c3CtrRec, by decide, ?_⟩
    rw [silentCheck_isSome_iff]
    refine ⟨by decide, ?_, ?_, by decide⟩
    · norm_num [c3CtrRec, sortQ, insertQ, gaps, pyMax]
    · norm_num [c3CtrRec, sortQ, insertQ, gaps, pyMax]
  · decide

/-- Claim C3 (amended): over any capture whose timestamps all convert, a stream
is flagged as silently terminated iff its record has at least two packet
timestamps, the maximum successive gap of the sorted timestamps exceeds both
five times the mean gap and the absolute 1.0 s floor, and the stream has at
least one recorded HTTP request — with no condition on `terminatedBy`: the
check never tests whether a FIN or RST was observed. -/
theorem c3_silent_flag_amended (tr : List Packet) (hg : goodTrace tr) (sid : ℕ) :
    sid ∈ silentIds (run3 tr) ↔
      ∃ r, lookupA (run3 tr).tcpStreams sid = some r
        ∧ 1 < r.packetTimestamps.length
        ∧ pyMax (gaps (sortQ r.packetTimestamps))
            > (gaps (sortQ r.packetTimestamps)).sum
                / ((gaps (sortQ r.packetTimestamps)).length : ℚ) * 5
        ∧ pyMax (gaps (sortQ r.packetTimestamps)) > 1
        ∧ ∃ l, lookupA (run3 tr).httpRequests sid = some l ∧ l ≠ [] := by
  rw [mem_silentIds_iff _ (NK_run3 tr)]
  constructor
  · rintro ⟨r, hr, hchk⟩
    obtain ⟨h1, h2, h3, h4⟩ := (silentCheck_isSome_iff _ _ _).mp hchk
    exact ⟨r, hr, h1, h2, h3, (memA_reqs_iff _ (ReqNE_run3 tr hg) sid).mp h4⟩
  · rintro ⟨r, hr, h1, h2, h3, h4⟩
    exact ⟨r, hr, (silentCheck_isSome_iff _ _ _).mpr
      ⟨h1, h2, h3, (memA_reqs_iff _ (ReqNE_run3 tr hg) sid).mpr h4⟩⟩

/-- Witness for C3 at the concrete RST-free capture `c3WTrace`. -/
theorem c3_silent_flag_amended_witness :
    goodTrace c3WTrace ∧
      (1 ∈ silentIds (run3 c3WTrace) ↔
        ∃ r, lookupA (run3 c3WTrace).tcpStreams 1 = some r
          ∧ 1 < r.packetTimestamps.length
          ∧ pyMax (gaps (sortQ r.packetTimestamps))
              > (gaps (sortQ r.packetTimestamps)).sum
                  / ((gaps (sortQ r.packetTimestamps)).length : ℚ) * 5
          ∧ pyMax (gaps (sortQ r.packetTimestamps)) > 1
          ∧ ∃ l, lookupA (run3 c3WTrace).httpRequests 1 = some l ∧ l ≠ []) :=
  ⟨by decide, c3_silent_flag_amended c3WTrace (by decide) 1⟩

/-! ### Claim C6: the termination-timing histogram -/

/-- Every recorded response list is nonempty (holds whenever all timestamps
convert: the entry is created empty and the info record appended right
after). -/
def RespNE (s : St) : Prop :=
  ∀ sid l, lookupA s.httpResponses sid = some l → l ≠ []

theorem resps_resOf_synBranch (p : Packet) (s : St) :
    (resOf (synBranch p s)).httpResponses = s.httpResponses := by
  unfold synBranch
  split
  · cases hb : p.tsBad
    · simp only [getTs_good _ hb, resOf_inr, modStream_httpResponses]
    · simp only [getTs_bad _ hb, resOf_inl, modStream_httpResponses]
  · rfl

theorem resps_resOf_rstBranch (p : Packet) (s : St) :
    (resOf (rstBranch p s)).httpResponses = s.httpResponses := by
  unfold rstBranch
  split
  · cases hb : p.tsBad
    · simp only [getTs_good _ hb, resOf_inr]
      split <;> simp
    · simp only [getTs_bad _ hb, resOf_inl]
      simp
  · rfl

theorem resps_resOf_finBranch (p : Packet) (s : St) :
    (resOf (finBranch p s)).httpResponses = s.httpResponses := by
  unfold finBranch
  split
  · cases hb : p.tsBad
    · simp only [getTs_good _ hb, resOf_inr]
      simp
    · simp only [getTs_bad _ hb, resOf_inl]
      simp
  · rfl

theorem resps_resOf_trackBranch (p : Packet) (s : St) :
    (resOf (trackBranch p s)).httpResponses = s.httpResponses := by
  unfold trackBranch
  cases hb : p.tsBad
  · simp only [getTs_good _ hb]
    split <;> simp [andThen]
  · simp only [getTs_bad _ hb]
    split <;> simp [andThen]

theorem RespNE_httpBranch_good (p : Packet) (s : St) (hb : p.tsBad = false)
    (hs : RespNE s) : RespNE (resOf (httpBranch p s)) := by
  unfold httpBranch
  split
  · exact hs
  · apply resOf_andThen (P := RespNE)
    · split
      · simp only [getTs_good _ hb, resOf_inr]
        repeat' split
        all_goals (intro sid l hl; exact hs sid l hl)
      · exact hs
    · intro s' hs'
      split
      · simp only [getTs_good _ hb, resOf_inr]
        intro sid l hl
        simp only [lookupA_updateA] at hl
        by_cases hsid : sid = p.stream
        · rw [if_pos hsid] at hl
          obtain rfl := Option.some.injEq .. ▸ hl.symm
          simp
        · rw [if_neg hsid] at hl
          split at hl
          · split at hl
            · split at hl
              · rw [lookupA_insertA, if_neg hsid] at hl
                exact hs' sid l hl
              · exact hs' sid l hl
            · split at hl
              · rw [lookupA_insertA, if_neg hsid] at hl
                exact hs' sid l hl
              · exact hs' sid l hl
          · split at hl
            · rw [lookupA_insertA, if_neg hsid] at hl
              exact hs' sid l hl
            · exact hs' sid l hl
      · exact hs'

theorem RespNE_w3step (s : St) (p : Packet) (hb : p.tsBad = false) (hs : RespNE s) :
    RespNE (w3step s p) := by
  rw [w3step_eq_resOf]
  unfold w3try
  by_cases htcp : p.tcp
  · simp only [htcp, if_true]
    apply resOf_andThen (P := RespNE)
    · intro sid l hl
      rw [resps_resOf_synBranch, portTrack_httpResponses] at hl
      exact hs sid l hl
    · intro s1 h1
      have h1' : RespNE (ackBranch p (synAckBranch p s1)) := by
        intro sid l hl
        rw [show (ackBranch p (synAckBranch p s1)).httpResponses = s1.httpResponses from by
          unfold ackBranch synAckBranch
          split <;> split <;> simp] at hl
        exact h1 sid l hl
      apply resOf_andThen (P := RespNE)
      · intro sid l hl
        rw [resps_resOf_rstBranch] at hl
        exact h1' sid l hl
      · intro s2 h2
        apply resOf_andThen (P := RespNE)
        · intro sid l hl
          rw [resps_resOf_finBranch] at hl
          exact h2 sid l hl
        · intro s3 h3
          apply resOf_andThen (P := RespNE)
          · intro sid l hl
            rw [resps_resOf_trackBranch] at hl
            exact h3 sid l hl
          · intro s4 h4
            apply resOf_andThen (P := RespNE)
            · exact RespNE_httpBranch_good p s4 hb h4
            · intro s5 h5
              intro sid l hl
              rw [resOf_inr, markerBlock_httpResponses] at hl
              exact h5 sid l hl
  · simpa [htcp] using hs

theorem RespNE_run3 (tr : List Packet) (hg : goodTrace tr) : RespNE (run3 tr) := by
  induction tr using List.reverseRecOn with
  | nil =>
    intro sid l hl
    simp [run3, run3From, initSt, lookupA] at hl
  | append_singleton t p ih =>
    have hg' : goodTrace t := fun q hq => hg q (List.mem_append_left _ hq)
    have hp : p.tsBad = false := hg p (by simp)
    rw [run3_snoc]
    exact RespNE_w3step (run3 t) p hp (ih hg')

theorem filterMap_eq_map_of {A B : Type} (f : A → Option B) (g : A → B) :
    ∀ l : List A, (∀ a ∈ l, f a = some (g a)) → l.filterMap f = l.map g
  | [], _ => rfl
  | a :: t, h => by
    rw [List.filterMap_cons, h a (by simp), List.map_cons,
      filterMap_eq_map_of f g t (fun a ha => h a (by simp [ha]))]

/-- Under the two loop invariants, the timing pass produces exactly one entry
per element of `rst_after_response`: the delta between that RST packet's own
time and the stream's maximum response time. -/
theorem timingIssues_eq_map (s : St) (hra : RA s) (hne : RespNE s) :
    timingIssues s = s.rstAfterResponse.map (fun it =>
      (it.stream, it.time
        - pyMax (((lookupA s.httpResponses it.stream).getD []).map RespInfo.time))) := by
  unfold timingIssues
  apply filterMap_eq_map_of
  intro it hit
  obtain ⟨resps, hr⟩ := Option.isSome_iff_exists.mp (hra it hit)
  have hnil : resps ≠ [] := hne it.stream resps hr
  rw [hr]
  simp only [Option.getD_some]
  rw [if_neg (by simpa [List.isEmpty_iff] using hnil)]

theorem histTotal_bucketAdd (h : Hist) (t : ℚ) :
    histTotal (bucketAdd h t) = histTotal h + 1 := by
  unfold bucketAdd histTotal
  repeat' split
  all_goals simp only []
  all_goals omega

theorem histTotal_foldl (l : List (ℕ × ℚ)) :
    ∀ h : Hist, histTotal (l.foldl (fun h it => bucketAdd h it.2) h)
      = histTotal h + l.length := by
  induction l with
  | nil => intro h; simp
  | cons a t ih =>
    intro h
    rw [List.foldl_cons, ih, histTotal_bucketAdd]
    simp only [List.length_cons]
    omega

/-- Each delta lands in exactly one bucket: the histogram's total count equals
the number of timing entries. -/
theorem histTotal_histogram (l : List (ℕ × ℚ)) : histTotal (histogram l) = l.length := by
  unfold histogram
  rw [histTotal_foldl]
  simp [histTotal]

def c6RespPkt : Packet :=
  { stream := 1, srcIp := 2, dstIp := 1, srcPort := 80, dstPort := 5000,
    ts := 1, http := some { isResp := true, status := 200 } }

def c6Rst1 : Packet :=
  { stream := 1, srcIp := 2, dstIp := 1, srcPort := 80, dstPort := 5000,
    ts := 2, flags := { rst := true } }

def c6Rst2 : Packet :=
  { stream := 1, srcIp := 2, dstIp := 1, srcPort := 80, dstPort := 5000,
    ts := 3, flags := { rst := true } }

/-- One stream: a response at t = 1, then two RSTs at t = 2 and t = 3. -/
def c6Trace : List Packet := [c6RespPkt, c6Rst1, c6Rst2]

set_option maxRecDepth 100000 in
/-- Claim C6, counterexample to "exactly one delta entry per RST-terminated
stream": on `c6Trace` exactly one stream ever received a RST after a response,
yet the histogram counts two entries, because the timing loop iterates over
`rst_after_response`, which gains one element per qualifying RST packet. -/
theorem c6_timing_counterexample :
    rstStreamsAfterResponse (run3 c6Trace) = [1]
      ∧ histTotal (histogram (timingIssues (run3 c6Trace))) = 2 := by
  refine ⟨by decide, ?_⟩
  rw [histTotal_histogram,
    timingIssues_eq_map (run3 c6Trace) (RA_run3 c6Trace) (RespNE_run3 c6Trace (by decide)),
    List.length_map]
  decide

/-- Claim C6 (amended): over any capture whose timestamps all convert, the
timing pass emits exactly one delta entry per element of `rst_after_response`
— that is, per RST packet observed while its stream already had a response
entry, not per RST-terminated stream — where the delta is that packet's own
time minus the maximum recorded response time of the stream; and each delta
is bucketed into exactly one of the four ranges, so the histogram's total
count equals the number of such RST packets. -/
theorem c6_timing_histogram_amended (tr : List Packet) (hg : goodTrace tr) :
    timingIssues (run3 tr) = (run3 tr).rstAfterResponse.map (fun it =>
        (it.stream, it.time
          - pyMax (((lookupA (run3 tr).httpResponses it.stream).getD [])
              |>.map RespInfo.time)))
      ∧ histTotal (histogram (timingIssues (run3 tr)))
          = (run3 tr).rstAfterResponse.length := by
  have h := timingIssues_eq_map (run3 tr) (RA_run3 tr) (RespNE_run3 tr hg)
  refine ⟨h, ?_⟩
  rw [histTotal_histogram, h, List.length_map]

set_option maxRecDepth 100000 in
/-- Witness for C6 at the concrete capture `c6Trace`. -/
theorem c6_timing_histogram_amended_witness :
    goodTrace c6Trace ∧
      (timingIssues (run3 c6Trace) = (run3 c6Trace).rstAfterResponse.map (fun it =>
          (it.stream, it.time
            - pyMax (((lookupA (run3 c6Trace).httpResponses it.stream).getD [])
                |>.map RespInfo.time)))
        ∧ histTotal (histogram (timingIssues (run3 c6Trace)))
            = (run3 c6Trace).rstAfterResponse.length) :=
  ⟨by decide, c6_timing_histogram_amended c6Trace (by decide)⟩

/-! ### Claims C2 and C9: port-reuse candidates -/

/-- The packet `q` has `(ip, port)` as one of its two endpoints. -/
def epMatch (q : Packet) (ip port : ℕ) : Prop :=
  (ip = q.srcIp ∧ port = q.srcPort) ∨ (ip = q.dstIp ∧ port = q.dstPort)

instance epMatchDecidable (q : Packet) (ip port : ℕ) : Decidable (epMatch q ip port) := by
  unfold epMatch
  infer_instance

/-- Reading `tcp_ports_by_ip[ip][port]` with empty defaults. -/
def pmGet (m : List (ℕ × List (ℕ × List ℕ))) (ip port : ℕ) : List ℕ :=
  (lookupA ((lookupA m ip).getD []) port).getD []

theorem portStreams_def (s : St) (ip port : ℕ) :
    portStreams s ip port = pmGet s.portsByIp ip port := rfl

theorem pmGet_upd (m : List (ℕ × List (ℕ × List ℕ))) (ip0 port0 sid ip port : ℕ) :
    pmGet (updateA m ip0 []
        (fun pm => updateA pm port0 [] (fun st => addSet st sid))) ip port
      = if ip = ip0 ∧ port = port0 then addSet (pmGet m ip port) sid
        else pmGet m ip port := by
  unfold pmGet
  rw [lookupA_updateA]
  by_cases hip : ip = ip0
  · subst hip
    rw [if_pos rfl]
    simp only [Option.getD_some]
    rw [lookupA_updateA]
    by_cases hport : port = port0
    · subst hport
      simp
    · rw [if_neg hport, if_neg (fun h => hport h.2)]
  · rw [if_neg hip, if_neg (fun h => hip h.1)]

theorem addSet_idem {A : Type} [DecidableEq A] (l : List A) (x : A) :
    addSet (addSet l x) x = addSet l x := by
  unfold addSet
  by_cases hx : x ∈ l
  · simp [hx]
  · simp [hx]

theorem addSet_ite {A : Type} [DecidableEq A] (C : Prop) [Decidable C]
    (a b : List A) (x : A) :
    addSet (if C then a else b) x = if C then addSet a x else addSet b x := by
  split <;> rfl

theorem portStreams_portTrack (s : St) (p : Packet) (ip port : ℕ) :
    portStreams (portTrack s p) ip port =
      if epMatch p ip port then addSet (portStreams s ip port) p.stream
      else portStreams s ip port := by
  unfold portTrack epMatch
  simp only [portStreams_def]
  simp only [apply_ite St.portsByIp, ite_self]
  simp only [pmGet_upd, addSet_ite, addSet_idem]
  by_cases h1 : ip = p.srcIp ∧ port = p.srcPort
  <;> by_cases h2 : ip = p.dstIp ∧ port = p.dstPort
  <;> simp [h1, h2]

theorem mem_reused_portTrack (s : St) (p : Packet) (sid : ℕ)
    (hn1 : (portStreams s p.srcIp p.srcPort).Nodup)
    (hn2 : (portStreams s p.dstIp p.dstPort).Nodup) :
    sid ∈ (portTrack s p).reused ↔
      sid ∈ s.reused ∨ (sid = p.stream ∧
        ∃ y, (y ∈ portStreams s p.srcIp p.srcPort
              ∨ y ∈ portStreams s p.dstIp p.dstPort) ∧ y ≠ p.stream) := by
  unfold portTrack
  simp only [portStreams_def] at hn1 hn2 ⊢
  simp only [pmGet_upd, addSet_ite, addSet_idem]
  simp only [and_self, eq_self_iff_true, if_true, true_and, ite_self]
  split
  case isTrue h =>
    simp only []
    rw [mem_addSet]
    constructor
    · rintro (hmem | rfl)
      · exact Or.inl hmem
      · refine Or.inr ⟨rfl, ?_⟩
        rcases h with h | h
        · obtain ⟨y, hy, hne⟩ := (length_addSet_pos_iff _ _ hn1).mp h
          exact ⟨y, Or.inl hy, hne⟩
        · obtain ⟨y, hy, hne⟩ := (length_addSet_pos_iff _ _ hn2).mp h
          exact ⟨y, Or.inr hy, hne⟩
    · rintro (hmem | ⟨rfl, _⟩)
      · exact Or.inl hmem
      · exact Or.inr rfl
  case isFalse h =>
    simp only []
    constructor
    · exact Or.inl
    · rintro (hmem | ⟨rfl, y, hy, hne⟩)
      · exact hmem
      · exfalso
        apply h
        rcases hy with hy | hy
        · exact Or.inl ((length_addSet_pos_iff _ _ hn1).mpr ⟨y, hy, hne⟩)
        · exact Or.inr ((length_addSet_pos_iff _ _ hn2).mpr ⟨y, hy, hne⟩)

theorem pr_synBranch (p : Packet) (s : St) :
    (resOf (synBranch p s)).portsByIp = s.portsByIp
    ∧ (resOf (synBranch p s)).reused = s.reused := by
  unfold synBranch
  split
  · cases hb : p.tsBad
    · simp only [getTs_good _ hb, resOf_inr]
      exact ⟨rfl, rfl⟩
    · simp only [getTs_bad _ hb, resOf_inl]
      exact ⟨rfl, rfl⟩
  · exact ⟨rfl, rfl⟩

theorem pr_rstBranch (p : Packet) (s : St) :
    (resOf (rstBranch p s)).portsByIp = s.portsByIp
    ∧ (resOf (rstBranch p s)).reused = s.reused := by
  unfold rstBranch
  split
  · cases hb : p.tsBad
    · simp only [getTs_good _ hb, resOf_inr]
      split <;> exact ⟨rfl, rfl⟩
    · simp only [getTs_bad _ hb, resOf_inl]
      exact ⟨rfl, rfl⟩
  · exact ⟨rfl, rfl⟩

theorem pr_finBranch (p : Packet) (s : St) :
    (resOf (finBranch p s)).portsByIp = s.portsByIp
    ∧ (resOf (finBranch p s)).reused = s.reused := by
  unfold finBranch
  split
  · cases hb : p.tsBad
    · simp only [getTs_good _ hb, resOf_inr]
      exact ⟨rfl, rfl⟩
    · simp only [getTs_bad _ hb, resOf_inl]
      exact ⟨rfl, rfl⟩
  · exact ⟨rfl, rfl⟩

theorem pr_trackBranch (p : Packet) (s : St) :
    (resOf (trackBranch p s)).portsByIp = s.portsByIp
    ∧ (resOf (trackBranch p s)).reused = s.reused := by
  unfold trackBranch
  cases hb : p.tsBad
  · simp only [getTs_good _ hb]
    split <;> simp [andThen]
  · simp only [getTs_bad _ hb]
    split <;> simp [andThen]

theorem pr_httpBranch (p : Packet) (s : St) :
    (resOf (httpBranch p s)).portsByIp = s.portsByIp
    ∧ (resOf (httpBranch p s)).reused = s.reused := by
  unfold httpBranch
  split
  · exact ⟨rfl, rfl⟩
  · apply resOf_andThen (P := fun x => x.portsByIp = s.portsByIp ∧ x.reused = s.reused)
    · cases hb : p.tsBad
      · simp only [getTs_good _ hb]
        repeat' split
        all_goals exact ⟨rfl, rfl⟩
      · simp only [getTs_bad _ hb]
        repeat' split
        all_goals exact ⟨rfl, rfl⟩
    · intro s' hs'
      cases hb : p.tsBad
      · simp only [getTs_good _ hb]
        repeat' split
        all_goals exact ⟨hs'.1, hs'.2⟩
      · simp only [getTs_bad _ hb]
        repeat' split
        all_goals exact ⟨hs'.1, hs'.2⟩

theorem w3step_pr (s : St) (p : Packet) (htcp : p.tcp = true) :
    (w3step s p).portsByIp = (portTrack s p).portsByIp
    ∧ (w3step s p).reused = (portTrack s p).reused := by
  rw [w3step_eq_resOf]
  unfold w3try
  simp only [htcp, if_true]
  apply resOf_andThen
    (P := fun x => x.portsByIp = (portTrack s p).portsByIp
      ∧ x.reused = (portTrack s p).reused)
  · exact pr_synBranch p (portTrack s p)
  · intro s1 h1
    have h1' : (ackBranch p (synAckBranch p s1)).portsByIp = (portTrack s p).portsByIp
        ∧ (ackBranch p (synAckBranch p s1)).reused = (portTrack s p).reused := by
      refine ⟨?_, ?_⟩
      · rw [show (ackBranch p (synAckBranch p s1)).portsByIp = s1.portsByIp from by
          unfold ackBranch synAckBranch
          split <;> split <;> simp]
        exact h1.1
      · rw [show (ackBranch p (synAckBranch p s1)).reused = s1.reused from by
          unfold ackBranch synAckBranch
          split <;> split <;> simp]
        exact h1.2
    apply resOf_andThen
      (P := fun x => x.portsByIp = (portTrack s p).portsByIp
        ∧ x.reused = (portTrack s p).reused)
    · obtain ⟨e1, e2⟩ := pr_rstBranch p (ackBranch p (synAckBranch p s1))
      exact ⟨e1.trans h1'.1, e2.trans h1'.2⟩
    · intro s2 h2
      apply resOf_andThen
        (P := fun x => x.portsByIp = (portTrack s p).portsByIp
          ∧ x.reused = (portTrack s p).reused)
      · obtain ⟨e1, e2⟩ := pr_finBranch p s2
        exact ⟨e1.trans h2.1, e2.trans h2.2⟩
      · intro s3 h3
        apply resOf_andThen
          (P := fun x => x.portsByIp = (portTrack s p).portsByIp
            ∧ x.reused = (portTrack s p).reused)
        · obtain ⟨e1, e2⟩ := pr_trackBranch p s3
          exact ⟨e1.trans h3.1, e2.trans h3.2⟩
        · intro s4 h4
          apply resOf_andThen
            (P := fun x => x.portsByIp = (portTrack s p).portsByIp
              ∧ x.reused = (portTrack s p).reused)
          · obtain ⟨e1, e2⟩ := pr_httpBranch p s4
            exact ⟨e1.trans h4.1, e2.trans h4.2⟩
          · intro s5 h5
            exact ⟨(markerBlock_portsByIp s5 p).trans h5.1,
              (markerBlock_reused s5 p).trans h5.2⟩

theorem w3step_pr_nontcp (s : St) (p : Packet) (htcp : p.tcp = false) :
    (w3step s p).portsByIp = s.portsByIp ∧ (w3step s p).reused = s.reused := by
  rw [w3step_eq_resOf]
  unfold w3try
  simp [htcp]

theorem portStreams_w3step (s : St) (p : Packet) (ip port : ℕ) :
    portStreams (w3step s p) ip port =
      if p.tcp then portStreams (portTrack s p) ip port
      else portStreams s ip port := by
  cases htcp : p.tcp
  · rw [if_neg (by simp)]
    unfold portStreams
    rw [(w3step_pr_nontcp s p htcp).1]
  · rw [if_pos rfl]
    unfold portStreams
    rw [(w3step_pr s p htcp).1]

theorem reused_w3step (s : St) (p : Packet) :
    (w3step s p).reused =
      if p.tcp then (portTrack s p).reused else s.reused := by
  cases htcp : p.tcp
  · rw [if_neg (by simp), (w3step_pr_nontcp s p htcp).2]
  · rw [if_pos rfl, (w3step_pr s p htcp).2]

theorem PS_run3 (tr : List Packet) (ip port : ℕ) :
    (portStreams (run3 tr) ip port).Nodup := by
  induction tr using List.reverseRecOn with
  | nil => simp [run3, run3From, initSt, portStreams, pmGet, lookupA]
  | append_singleton t p ih =>
    rw [run3_snoc, portStreams_w3step]
    split
    · rw [portStreams_portTrack]
      split
      · exact nodup_addSet _ _ ih
      · exact ih
    · exact ih

theorem mem_portStreams_run3 (tr : List Packet) (ip port y : ℕ) :
    y ∈ portStreams (run3 tr) ip port ↔
      ∃ q ∈ tr, q.tcp = true ∧ q.stream = y ∧ epMatch q ip port := by
  induction tr using List.reverseRecOn with
  | nil => simp [run3, run3From, initSt, portStreams, pmGet, lookupA]
  | append_singleton t p ih =>
    rw [run3_snoc, portStreams_w3step]
    cases htcp : p.tcp
    · rw [if_neg (by simp), ih]
      constructor
      · rintro ⟨q, hq, hrest⟩
        exact ⟨q, List.mem_append_left _ hq, hrest⟩
      · rintro ⟨q, hq, hrest⟩
        rcases List.mem_append.mp hq with hq | hq
        · exact ⟨q, hq, hrest⟩
        · obtain rfl := List.mem_singleton.mp hq
          rw [htcp] at hrest
          exact absurd hrest.1 (by simp)
    · rw [if_pos rfl, portStreams_portTrack]
      by_cases hep : epMatch p ip port
      · rw [if_pos hep, mem_addSet, ih]
        constructor
        · rintro (⟨q, hq, hrest⟩ | rfl)
          · exact ⟨q, List.mem_append_left _ hq, hrest⟩
          · exact ⟨p, List.mem_append_right _ (by simp), htcp, rfl, hep⟩
        · rintro ⟨q, hq, h1, h2, h3⟩
          rcases List.mem_append.mp hq with hq | hq
          · exact Or.inl ⟨q, hq, h1, h2, h3⟩
          · obtain rfl := List.mem_singleton.mp hq
            exact Or.inr h2.symm
      · rw [if_neg hep, ih]
        constructor
        · rintro ⟨q, hq, hrest⟩
          exact ⟨q, List.mem_append_left _ hq, hrest⟩
        · rintro ⟨q, hq, h1, h2, h3⟩
          rcases List.mem_append.mp hq with hq | hq
          · exact ⟨q, hq, h1, h2, h3⟩
          · obtain rfl := List.mem_singleton.mp hq
            exact absurd h3 hep

theorem exists_split_snoc {A : Type} (t : List A) (p : A) (P : List A → A → Prop) :
    (∃ t1 x t2, t ++ [p] = t1 ++ x :: t2 ∧ P t1 x) ↔
      (∃ t1 x t2, t = t1 ++ x :: t2 ∧ P t1 x) ∨ P t p := by
  constructor
  · rintro ⟨t1, x, t2, heq, hP⟩
    rcases List.eq_nil_or_concat t2 with rfl | ⟨t2h, y, rfl⟩
    · obtain ⟨rfl, hx⟩ := List.append_inj' heq rfl
      obtain rfl : p = x := by simpa using hx
      exact Or.inr hP
    · rw [List.concat_eq_append,
        show t1 ++ x :: (t2h ++ [y]) = (t1 ++ x :: t2h) ++ [y] from by simp] at heq
      obtain ⟨rfl, _⟩ := List.append_inj' heq rfl
      exact Or.inl ⟨t1, x, t2h, rfl, hP⟩
  · rintro (⟨t1, x, t2, rfl, hP⟩ | hP)
    · exact ⟨t1, x, t2 ++ [p], by simp, hP⟩
    · exact ⟨t, p, [], rfl, hP⟩

/-- Claim C9: a stream id is in `reused_connections` exactly when one of its
packets was processed at a moment when that packet's source or destination
`(address, port)` endpoint was already associated with a different stream. In
particular a server port contacted by several flows flags every later flow,
since both endpoints of every TCP packet are tracked per address. -/
theorem c9_port_reuse_membership (tr : List Packet) (sid : ℕ) :
    sid ∈ (run3 tr).reused ↔
      ∃ t1 p t2, tr = t1 ++ p :: t2 ∧ p.tcp = true ∧ p.stream = sid
        ∧ ∃ q ∈ t1, q.tcp = true ∧ q.stream ≠ sid
            ∧ (epMatch q p.srcIp p.srcPort ∨ epMatch q p.dstIp p.dstPort) := by
  induction tr using List.reverseRecOn with
  | nil =>
    constructor
    · intro h
      simp [run3, run3From, initSt] at h
    · rintro ⟨t1, p', t2, heq, -⟩
      simp at heq
  | append_singleton t p ih =>
    rw [run3_snoc, reused_w3step]
    rw [exists_split_snoc t p (fun t1 x => x.tcp = true ∧ x.stream = sid
      ∧ ∃ q ∈ t1, q.tcp = true ∧ q.stream ≠ sid
          ∧ (epMatch q x.srcIp x.srcPort ∨ epMatch q x.dstIp x.dstPort))]
    cases htcp : p.tcp
    · rw [if_neg (by simp), ih]
      simp
    · rw [if_pos rfl,
        mem_reused_portTrack _ _ _ (PS_run3 t p.srcIp p.srcPort)
          (PS_run3 t p.dstIp p.dstPort), ih]
      apply or_congr Iff.rfl
      constructor
      · rintro ⟨rfl, y, hy, hyne⟩
        refine ⟨rfl, rfl, ?_⟩
        rcases hy with hy | hy
        · obtain ⟨q, hq, h1, h2, h3⟩ := (mem_portStreams_run3 t p.srcIp p.srcPort y).mp hy
          exact ⟨q, hq, h1, by rw [h2]; exact hyne, Or.inl h3⟩
        · obtain ⟨q, hq, h1, h2, h3⟩ := (mem_portStreams_run3 t p.dstIp p.dstPort y).mp hy
          exact ⟨q, hq, h1, by rw [h2]; exact hyne, Or.inr h3⟩
      · rintro ⟨-, hps, q, hq, hqtcp, hqne, hqep⟩
        refine ⟨hps.symm, q.stream, ?_, by rw [hps]; exact hqne⟩
        rcases hqep with hep | hep
        · exact Or.inl ((mem_portStreams_run3 t p.srcIp p.srcPort q.stream).mpr
            ⟨q, hq, hqtcp, rfl, hep⟩)
        · exact Or.inr ((mem_portStreams_run3 t p.dstIp p.dstPort q.stream).mpr
            ⟨q, hq, hqtcp, rfl, hep⟩)

/-- Scenario D, flow 1: stream 1 uses local port 5000 against remote 2:80. -/
def c2FlowAPkt : Packet :=
  { stream := 1, srcIp := 1, dstIp := 2, srcPort := 5000, dstPort := 80, ts := 0 }

/-- Scenario D, flow 2: stream 2 later reuses local port 5000 against 2:80. -/
def c2FlowBPkt : Packet :=
  { stream := 2, srcIp := 1, dstIp := 2, srcPort := 5000, dstPort := 80, ts := 10 }

/-- Scenario D: two non-overlapping flows sharing both endpoints. -/
def c2Trace : List Packet := [c2FlowAPkt, c2FlowBPkt]

/-- A further packet of stream 1 arriving after flow 2 started. -/
def c2LatePkt : Packet :=
  { stream := 1, srcIp := 1, dstIp := 2, srcPort := 5000, dstPort := 80, ts := 20 }

/-- Claim C2, counterexample: in scenario D the reuse-candidate set holds only
the later flow's stream; the earlier flow 1 shares the port yet is absent,
because the loop only ever adds the current packet's stream id. -/
theorem c2_port_reuse_counterexample :
    (run3 c2Trace).reused = [2] ∧ 1 ∉ (run3 c2Trace).reused := by
  exact ⟨by decide, by decide⟩

/-- Claim C2 (amended): flagging is per packet, not per port. When a port maps
to several streams, only streams that have a packet processed after the port
became shared are flagged. In scenario D only the later flow (stream 2) is a
candidate; the earlier flow is added only if one of its own packets arrives
after the overlap, as with `c2LatePkt`. -/
theorem c2_port_reuse_amended :
    (run3 c2Trace).reused = [2]
      ∧ (run3 (c2Trace ++ [c2LatePkt])).reused = [2, 1] := by
  exact ⟨by decide, by decide⟩
